import Mathlib

/-!
Verification of the TDM MPTCP scheduler (net/mptcp/mptcp_tdm.c).

This file gives a shallow embedding of the scheduler module: the per-subflow
eligibility predicate mptcp_tdm_is_available, the reinjection selector
tdm_get_available_subflow, and the quota-based decision procedure
mptcp_tdm_next_segment, together with theorems about their behaviour.

Modelling conventions:
  - A subflow socket (tcp_sock plus its mptcp extension and scheduler private
    area) is a record MptcpSub of exactly the fields the scheduler reads.
    Fields produced by external kernel helpers that the module only calls
    (mptcp_sk_can_send, tcp_packets_in_flight, tcp_wnd_end, tcp_current_mss)
    are modelled as input fields, since the scheduler treats them as opaque
    inputs read from the transport layer.
  - Sequence-number arithmetic is u32 arithmetic: before() is the kernel's
    signed-wraparound comparison, subtraction is modulo 2^32.
  - The counters iter and full_subs are unsigned char in the source, so each
    increment is taken modulo 256.  The quota field is a C int; it is modelled
    as an unbounded Int (no scheduling state in scope approaches 2^31).
  - The goto-retry control flow of mptcp_tdm_next_segment is modelled by the
    fuel-indexed loop tdm_retry_loop; a result of none means the loop did not
    settle within the given number of scans (the C code would still be
    iterating), and some out means the function returned, where out.skb = none
    stands for a C NULL return.
  - Pointer identity of the chosen subflow is modelled by its position in the
    connection's subflow list.
-/

namespace MptcpTdm

/-- u32 subtraction a - b (modulo 2^32), as used on kernel sequence numbers. -/
def u32sub (a b : Nat) : Nat :=
  (a % 2 ^ 32 + (2 ^ 32 - b % 2 ^ 32)) % 2 ^ 32

/-- The kernel before(seq1, seq2) test: (s32)(seq1 - seq2) < 0. -/
def tcpBefore (seq1 seq2 : Nat) : Bool :=
  decide (2 ^ 31 ≤ u32sub seq1 seq2)

/-- Conversion of a C int value to unsigned int (as in the *limit store). -/
def intToU32 (x : Int) : Nat :=
  (x % (2 ^ 32 : Int)).toNat

/-- A queued segment: TCP_SKB_CB(skb)->seq, skb->len, the carried-path bitmask
TCP_SKB_CB(skb)->path_mask, and the mptcp_is_data_fin flag. -/
structure Skb where
  seq : Nat
  len : Nat
  path_mask : Nat
  is_data_fin : Bool
deriving Repr, DecidableEq

/-- One subflow: the fields of tcp_sock / mptcp_tcp_sock / tdmsched_priv that
mptcp_tdm.c reads, plus the values of the external helpers it calls on the
subflow (can_send for mptcp_sk_can_send, packets_in_flight for
tcp_packets_in_flight, wnd_end for tcp_wnd_end, mss_now for tcp_current_mss). -/
structure MptcpSub where
  path_index : Nat
  curr_tdn : Nat
  can_send : Bool
  pre_established : Bool
  pf : Bool
  ca_loss : Bool
  is_reno : Bool
  snd_una : Nat
  high_seq : Nat
  fully_established : Bool
  second_packet : Bool
  last_end_data_seq : Nat
  packets_in_flight : Nat
  snd_cwnd : Nat
  mss_cache : Nat
  write_seq : Nat
  snd_nxt : Nat
  wnd_end : Nat
  mss_now : Nat
  quota : Int
deriving Repr, DecidableEq

/-- The meta-socket and control block: the subflow list (in
mptcp_for_each_sub order), RCV_SHUTDOWN, dfin_path_index, the two fallback
flags, the head of the reinject queue (skb_peek) and tcp_send_head. -/
structure MetaSk where
  subs : List MptcpSub
  rcv_shutdown : Bool
  dfin_path_index : Nat
  infinite_mapping_snd : Bool
  send_infinite_mapping : Bool
  reinject_head : Option Skb
  send_head : Option Skb
deriving Repr, DecidableEq

/-- The module parameters num_segments (int, default 10000) and cwnd_limited
(bool, default 1). -/
structure TdmConfig where
  num_segments : Int
  cwnd_limited : Bool
deriving Repr, DecidableEq

/-- The in-order guard used before full establishment: skb is present,
second_packet is set and the last delivered end sequence differs from the
candidate's start sequence. -/
def skbSeqMismatch (sub : MptcpSub) (skb : Option Skb) : Bool :=
  match skb with
  | some s => sub.second_packet && (sub.last_end_data_seq != s.seq)
  | none => false

/-- mptcp_tdm_is_available: may subflow sub carry skb right now?  The meta
socket argument of the C function is used only in the diagnostic message and
is dropped here.  Note that the TDN ordinal check at the top returns false on
mismatch. -/
def mptcp_tdm_is_available (sub : MptcpSub) (skb : Option Skb)
    (zero_wnd_test cwnd_test : Bool) : Bool :=
  if sub.curr_tdn != sub.path_index - 1 then false
  else if !sub.can_send then false
  else if sub.pre_established then false
  else if sub.pf then false
  else if sub.ca_loss && (!sub.is_reno || sub.snd_una != sub.high_seq) then false
  else if !sub.fully_established && skbSeqMismatch sub skb then false
  else if cwnd_test &&
      (decide (sub.snd_cwnd ≤ sub.packets_in_flight) ||
       decide (((sub.snd_cwnd - sub.packets_in_flight) * sub.mss_cache) % 2 ^ 32 <
         u32sub sub.write_seq sub.snd_nxt)) then false
  else if zero_wnd_test && !tcpBefore sub.write_seq sub.wnd_end then false
  else true

/-- mptcp_tdm_dont_reinject_skb: has skb already been enqueued on this
subflow?  mptcp_pi_to_flag(pi) is 1 shifted left by (pi - 1). -/
def mptcp_tdm_dont_reinject_skb (sub : MptcpSub) (skb : Option Skb) : Bool :=
  match skb with
  | none => false
  | some s => (2 ^ (sub.path_index - 1)) &&& s.path_mask != 0

/-- The three cursor variables of the scan loop in tdm_get_available_subflow:
bestsk, backupsk, and the loop variable sk (which retains the last subflow
examined). -/
structure SubflowScan where
  bestsk : Option MptcpSub
  backupsk : Option MptcpSub
  sk : Option MptcpSub
deriving Repr, DecidableEq

/-- The main loop of tdm_get_available_subflow: sk is assigned on every
iteration, unavailable subflows are skipped, already-carrying subflows become
backupsk, the rest become bestsk (last assignment wins). -/
def tdm_scan_subflows (skb : Option Skb) (zero_wnd_test : Bool) :
    List MptcpSub → SubflowScan → SubflowScan
  | [], acc => acc
  | sub :: rest, acc =>
    let acc1 : SubflowScan := { acc with sk := some sub }
    if !mptcp_tdm_is_available sub skb zero_wnd_test true then
      tdm_scan_subflows skb zero_wnd_test rest acc1
    else if mptcp_tdm_dont_reinject_skb sub skb then
      tdm_scan_subflows skb zero_wnd_test rest { acc1 with backupsk := some sub }
    else
      tdm_scan_subflows skb zero_wnd_test rest { acc1 with bestsk := some sub }

/-- tdm_get_available_subflow.  Returns the chosen subflow (if any) and the
skb as left behind by the call (its path_mask is cleared in the backupsk
case).  The data_fin pre-loop returns the first subflow whose path_index is
dfin_path_index and which is available; if it finds none, control falls
through to the ordinary scan. -/
def tdm_get_available_subflow (meta : MetaSk) (skb : Option Skb)
    (zero_wnd_test : Bool) : Option MptcpSub × Option Skb :=
  let dfin : Option MptcpSub :=
    match skb with
    | some s =>
      if meta.rcv_shutdown && s.is_data_fin then
        meta.subs.find? (fun sub =>
          (sub.path_index == meta.dfin_path_index) &&
            mptcp_tdm_is_available sub skb zero_wnd_test true)
      else none
    | none => none
  match dfin with
  | some sub => (some sub, skb)
  | none =>
    let scan := tdm_scan_subflows skb zero_wnd_test meta.subs
      { bestsk := none, backupsk := none, sk := none }
    match scan.bestsk with
    | some b => (some b, skb)
    | none =>
      match scan.backupsk with
      | some b => (some b, skb.map (fun s => { s with path_mask := 0 }))
      | none => (scan.sk, skb)

/-- The double-underscore helper __mptcp_tdm_next_segment: pick the candidate
skb (send head in fallback mode, otherwise the reinject-queue head if any,
otherwise the send head) and the reinject flag. -/
def mptcp_tdm_next_segment' (meta : MetaSk) : Option Skb × Int :=
  if meta.infinite_mapping_snd || meta.send_infinite_mapping then
    (meta.send_head, 0)
  else
    match meta.reinject_head with
    | some skb => (some skb, 1)
    | none => (meta.send_head, 0)

/-- The quota-scan cursor: iter and full_subs (unsigned char in the source,
kept below 256 by taking each increment modulo 256), split, and the position
of choose_sk in the subflow list (none for a NULL choose_sk). -/
structure ScanAcc where
  iter : Nat
  full_subs : Nat
  split : Int
  choose : Option Nat
deriving Repr, DecidableEq

/-- Initial values of the scan cursor on entry to mptcp_tdm_next_segment:
iter = 0, full_subs = 0, split = num_segments, choose_sk = NULL. -/
def tdmInitAcc (cfg : TdmConfig) : ScanAcc :=
  { iter := 0, full_subs := 0, split := cfg.num_segments, choose := none }

/-- Eligibility as tested inside the quota scan of mptcp_tdm_next_segment:
is_available with zero_wnd_test = false and cwnd_test = cwnd_limited. -/
def tdmElig (cfg : TdmConfig) (skb : Skb) (sub : MptcpSub) : Bool :=
  mptcp_tdm_is_available sub (some skb) false cfg.cwnd_limited

/-- An eligible subflow whose quota has reached the round size. -/
def tdmFull (cfg : TdmConfig) (skb : Skb) (sub : MptcpSub) : Bool :=
  tdmElig cfg skb sub && decide (cfg.num_segments ≤ sub.quota)

/-- An eligible subflow in mid-burst: 0 < quota < num_segments. -/
def tdmBurst (cfg : TdmConfig) (skb : Skb) (sub : MptcpSub) : Bool :=
  tdmElig cfg skb sub && decide (0 < sub.quota ∧ sub.quota < cfg.num_segments)

/-- An eligible idle subflow: quota = 0. -/
def tdmIdle (cfg : TdmConfig) (skb : Skb) (sub : MptcpSub) : Bool :=
  tdmElig cfg skb sub && decide (sub.quota = 0)

/-- The body of the quota scan for one available subflow at position pos:
bump iter; a mid-burst subflow is chosen immediately (first component true
models the goto found); an idle subflow becomes the current choice; a full
subflow bumps full_subs. -/
def tdm_scan_step (cfg : TdmConfig) (pos : Nat) (sub : MptcpSub)
    (acc : ScanAcc) : Bool × ScanAcc :=
  let acc1 : ScanAcc := { acc with iter := (acc.iter + 1) % 256 }
  if 0 < sub.quota ∧ sub.quota < cfg.num_segments then
    (true, { acc1 with split := cfg.num_segments - sub.quota, choose := some pos })
  else
    let acc2 : ScanAcc :=
      if sub.quota = 0 then
        { acc1 with split := cfg.num_segments, choose := some pos }
      else acc1
    let acc3 : ScanAcc :=
      if cfg.num_segments ≤ sub.quota then
        { acc2 with full_subs := (acc2.full_subs + 1) % 256 }
      else acc2
    (false, acc3)

/-- One scan over the subflow list (the mptcp_for_each_sub loop after the
retry label).  The Bool result is true when the scan exited early through
goto found with a mid-burst subflow. -/
def tdm_scan_pass (cfg : TdmConfig) (skb : Skb) :
    List MptcpSub → Nat → ScanAcc → Bool × ScanAcc
  | [], _, acc => (false, acc)
  | sub :: rest, pos, acc =>
    if tdmElig cfg skb sub then
      let r := tdm_scan_step cfg pos sub acc
      if r.1 then (true, r.2)
      else tdm_scan_pass cfg skb rest (pos + 1) r.2
    else
      tdm_scan_pass cfg skb rest (pos + 1) acc

/-- The round-exhaustion reset: quota is set to 0 on every subflow that is
currently available (same availability call as in the scan). -/
def tdm_reset_quotas (cfg : TdmConfig) (skb : Skb) (subs : List MptcpSub) :
    List MptcpSub :=
  subs.map fun sub =>
    if tdmElig cfg skb sub then { sub with quota := 0 } else sub

/-- The goto-retry loop of mptcp_tdm_next_segment: scan, and if all counted
subflows were full (iter nonzero and equal to full_subs), reset quotas and
scan again.  fuel bounds the number of scans; none means the loop was still
running when fuel ran out. -/
def tdm_retry_loop (cfg : TdmConfig) (skb : Skb) :
    Nat → List MptcpSub → ScanAcc → Option (ScanAcc × List MptcpSub)
  | 0, _, _ => none
  | fuel + 1, subs, acc =>
    match tdm_scan_pass cfg skb subs 0 acc with
    | (true, acc') => some (acc', subs)
    | (false, acc') =>
      if acc'.iter ≠ 0 ∧ acc'.iter = acc'.full_subs then
        tdm_retry_loop cfg skb fuel (tdm_reset_quotas cfg skb subs) acc'
      else some (acc', subs)

/-- The quota increment applied at selection time: DIV_ROUND_UP(len, mss_now)
when the segment is longer than the current mss, else 1. -/
def tdm_quota_increment (len mss_now : Nat) : Int :=
  if mss_now < len then ((len + mss_now - 1) / mss_now : Nat) else 1

/-- The result of one mptcp_tdm_next_segment call: the returned skb (none for
a NULL return), the *subsk output (the chosen subflow as read at selection
time, before its quota update), the *limit output, the *reinject output, and
the subflow list after the call (reflecting quota resets and the selection
increment). -/
structure SchedOut where
  skb : Option Skb
  subsk : Option MptcpSub
  limit : Nat
  reinject : Int
  subs : List MptcpSub
deriving Repr, DecidableEq

/-- The code after the found label: if a subflow was chosen, re-check it with
zero_wnd_test = false and cwnd_test = true, compute *limit = split * mss_now,
and apply the quota increment; otherwise (or when the re-check fails) return
NULL.  Resets already applied to the subflow list persist either way. -/
def tdm_found (cfg : TdmConfig) (skb : Skb) (reinject : Int)
    (acc : ScanAcc) (subs' : List MptcpSub) : SchedOut :=
  match acc.choose with
  | none => { skb := none, subsk := none, limit := 0, reinject := reinject, subs := subs' }
  | some i =>
    match subs'[i]? with
    | none => { skb := none, subsk := none, limit := 0, reinject := reinject, subs := subs' }
    | some ch =>
      if mptcp_tdm_is_available ch (some skb) false true then
        { skb := some skb
          subsk := some ch
          limit := intToU32 acc.split * ch.mss_now % 2 ^ 32
          reinject := reinject
          subs := subs'.set i
            { ch with quota := ch.quota + tdm_quota_increment skb.len ch.mss_now } }
      else
        { skb := none, subsk := none, limit := 0, reinject := reinject, subs := subs' }

/-- mptcp_tdm_next_segment.  fuel bounds the number of quota scans (the C
loop is unbounded); none means the loop had not settled within fuel scans. -/
def mptcp_tdm_next_segment (cfg : TdmConfig) (fuel : Nat) (meta : MetaSk) :
    Option SchedOut :=
  match mptcp_tdm_next_segment' meta with
  | (none, reinject) =>
    some { skb := none, subsk := none, limit := 0, reinject := reinject, subs := meta.subs }
  | (some skb, reinject) =>
    if reinject = 1 then
      match tdm_get_available_subflow meta (some skb) false with
      | (none, _) =>
        some { skb := none, subsk := none, limit := 0, reinject := reinject, subs := meta.subs }
      | (some sub, skb') =>
        some { skb := skb', subsk := some sub, limit := 0, reinject := reinject, subs := meta.subs }
    else
      match tdm_retry_loop cfg skb fuel meta.subs (tdmInitAcc cfg) with
      | none => none
      | some (acc, subs') => some (tdm_found cfg skb reinject acc subs')

/-- Modelled from the source configuration surface: module_param(num_segments,
int, 0644) installs the round-size parameter with the generic int ops and no
bounds check, so a configuration write stores any int value unchanged. -/
def num_segments_param_store (v : Int) : Int := v

/-- Position and value of the first eligible mid-burst subflow of a list. -/
def firstBurstRel (cfg : TdmConfig) (skb : Skb) : List MptcpSub → Option (Nat × MptcpSub)
  | [] => none
  | sub :: rest =>
    if tdmBurst cfg skb sub then some (0, sub)
    else (firstBurstRel cfg skb rest).map (fun p => (p.1 + 1, p.2))

/-- Position and value of the last eligible idle subflow of a list. -/
def lastIdleRel (cfg : TdmConfig) (skb : Skb) : List MptcpSub → Option (Nat × MptcpSub)
  | [] => none
  | sub :: rest =>
    match lastIdleRel cfg skb rest with
    | some p => some (p.1 + 1, p.2)
    | none => if tdmIdle cfg skb sub then some (0, sub) else none

/-- The eligibility predicate never reads the scheduler quota. -/
theorem tdmElig_quota (cfg : TdmConfig) (skb : Skb) (sub : MptcpSub) (q : Int) :
    tdmElig cfg skb { sub with quota := q } = tdmElig cfg skb sub := rfl

theorem firstBurstRel_get (cfg : TdmConfig) (skb : Skb) :
    ∀ (l : List MptcpSub) (j : Nat) (s : MptcpSub),
      firstBurstRel cfg skb l = some (j, s) →
      l[j]? = some s ∧ tdmBurst cfg skb s = true := by
  intro l
  induction l with
  | nil => intro j s h; simp [firstBurstRel] at h
  | cons sub rest ih =>
    intro j s h
    by_cases hb : tdmBurst cfg skb sub
    · rw [firstBurstRel, if_pos hb] at h
      obtain ⟨hj, hs⟩ := Prod.mk.injEq .. ▸ Option.some.inj h
      subst hj; subst hs
      simpa using hb
    · rw [firstBurstRel, if_neg hb] at h
      rcases hr : firstBurstRel cfg skb rest with _ | ⟨j', s'⟩
      · rw [hr] at h; simp at h
      · rw [hr, Option.map_some'] at h
        obtain ⟨hj, hs⟩ := Prod.mk.injEq .. ▸ Option.some.inj h
        subst hj; subst hs
        obtain ⟨hg, hbs⟩ := ih j' s' hr
        exact ⟨by simpa using hg, hbs⟩

theorem firstBurstRel_none (cfg : TdmConfig) (skb : Skb) :
    ∀ (l : List MptcpSub),
      firstBurstRel cfg skb l = none ↔ ∀ s ∈ l, tdmBurst cfg skb s = false := by
  intro l
  induction l with
  | nil => simp [firstBurstRel]
  | cons sub rest ih =>
    by_cases hb : tdmBurst cfg skb sub
    · rw [firstBurstRel, if_pos hb]
      constructor
      · intro h; simp at h
      · intro h
        have := h sub (List.mem_cons_self ..)
        rw [hb] at this; simp at this
    · rw [firstBurstRel, if_neg hb]
      rcases hr : firstBurstRel cfg skb rest with _ | ⟨j', s'⟩
      · simp only [hr, Option.map_none', List.mem_cons]
        constructor
        · intro _ s hs
          rcases hs with h | h
          · subst h; exact Bool.eq_false_iff.mpr hb
          · exact (ih.mp hr) s h
        · intro _; trivial
      · simp only [hr, Option.map_some', List.mem_cons]
        constructor
        · intro h; simp at h
        · intro h
          have h1 : tdmBurst cfg skb s' = true := (firstBurstRel_get cfg skb rest j' s' hr).2
          have hmem : s' ∈ rest := by
            have := (firstBurstRel_get cfg skb rest j' s' hr).1
            exact List.getElem?_mem this
          have h2 : tdmBurst cfg skb s' = false := h s' (Or.inr hmem)
          rw [h1] at h2; simp at h2

theorem lastIdleRel_get (cfg : TdmConfig) (skb : Skb) :
    ∀ (l : List MptcpSub) (j : Nat) (s : MptcpSub),
      lastIdleRel cfg skb l = some (j, s) →
      l[j]? = some s ∧ tdmIdle cfg skb s = true := by
  intro l
  induction l with
  | nil => intro j s h; simp [lastIdleRel] at h
  | cons sub rest ih =>
    intro j s h
    rw [lastIdleRel] at h
    rcases hr : lastIdleRel cfg skb rest with _ | ⟨j', s'⟩
    · rw [hr] at h
      by_cases hi : tdmIdle cfg skb sub
      · rw [if_pos hi] at h
        obtain ⟨hj, hs⟩ := Prod.mk.injEq .. ▸ Option.some.inj h
        subst hj; subst hs
        simpa using hi
      · rw [if_neg hi] at h; simp at h
    · rw [hr] at h
      obtain ⟨hj, hs⟩ := Prod.mk.injEq .. ▸ Option.some.inj h
      subst hj; subst hs
      obtain ⟨hg, hi⟩ := ih j' s' hr
      exact ⟨by simpa using hg, hi⟩

theorem lastIdleRel_isSome (cfg : TdmConfig) (skb : Skb) :
    ∀ (l : List MptcpSub) (s : MptcpSub), s ∈ l → tdmIdle cfg skb s = true →
      (lastIdleRel cfg skb l).isSome = true := by
  intro l
  induction l with
  | nil => intro s h; simp at h
  | cons sub rest ih =>
    intro s hmem hi
    rw [lastIdleRel]
    rcases hr : lastIdleRel cfg skb rest with _ | ⟨j', s'⟩
    · rcases List.mem_cons.mp hmem with h | h
      · subst h; simp [hi]
      · have := ih s h hi
        rw [hr] at this
        simp at this
    · simp

/-- The cursor produced by a scan that ran to completion (no goto found):
iter and full_subs advance by the eligible / full counts, and the choice and
split are overwritten exactly when the list contains an eligible idle
subflow, by its last occurrence. -/
def scanOutAcc (cfg : TdmConfig) (skb : Skb) (l : List MptcpSub) (pos : Nat)
    (acc : ScanAcc) : ScanAcc :=
  { iter := (acc.iter + l.countP (tdmElig cfg skb)) % 256
    full_subs := (acc.full_subs + l.countP (tdmFull cfg skb)) % 256
    split :=
      match lastIdleRel cfg skb l with
      | some _ => cfg.num_segments
      | none => acc.split
    choose :=
      match lastIdleRel cfg skb l with
      | some p => some (pos + p.1)
      | none => acc.choose }

theorem tdm_scan_step_false (cfg : TdmConfig) (pos : Nat) (sub : MptcpSub)
    (acc : ScanAcc) (h : ¬(0 < sub.quota ∧ sub.quota < cfg.num_segments)) :
    tdm_scan_step cfg pos sub acc =
      (false,
        { iter := (acc.iter + 1) % 256
          full_subs :=
            if cfg.num_segments ≤ sub.quota then (acc.full_subs + 1) % 256
            else acc.full_subs
          split := if sub.quota = 0 then cfg.num_segments else acc.split
          choose := if sub.quota = 0 then some pos else acc.choose }) := by
  simp only [tdm_scan_step, if_neg h]
  split_ifs <;> rfl

theorem tdm_scan_step_true (cfg : TdmConfig) (pos : Nat) (sub : MptcpSub)
    (acc : ScanAcc) (h : 0 < sub.quota ∧ sub.quota < cfg.num_segments) :
    tdm_scan_step cfg pos sub acc =
      (true,
        { iter := (acc.iter + 1) % 256
          full_subs := acc.full_subs
          split := cfg.num_segments - sub.quota
          choose := some pos }) := by
  simp only [tdm_scan_step, if_pos h]

theorem tdm_scan_pass_cons_inelig (cfg : TdmConfig) (skb : Skb) (sub : MptcpSub)
    (rest : List MptcpSub) (pos : Nat) (acc : ScanAcc)
    (he : tdmElig cfg skb sub = false) :
    tdm_scan_pass cfg skb (sub :: rest) pos acc =
      tdm_scan_pass cfg skb rest (pos + 1) acc := by
  simp [tdm_scan_pass, he]

theorem tdm_scan_pass_cons_false (cfg : TdmConfig) (skb : Skb) (sub : MptcpSub)
    (rest : List MptcpSub) (pos : Nat) (acc acc' : ScanAcc)
    (he : tdmElig cfg skb sub = true)
    (hstep : tdm_scan_step cfg pos sub acc = (false, acc')) :
    tdm_scan_pass cfg skb (sub :: rest) pos acc =
      tdm_scan_pass cfg skb rest (pos + 1) acc' := by
  simp [tdm_scan_pass, he, hstep]

theorem tdm_scan_pass_cons_true (cfg : TdmConfig) (skb : Skb) (sub : MptcpSub)
    (rest : List MptcpSub) (pos : Nat) (acc acc' : ScanAcc)
    (he : tdmElig cfg skb sub = true)
    (hstep : tdm_scan_step cfg pos sub acc = (true, acc')) :
    tdm_scan_pass cfg skb (sub :: rest) pos acc = (true, acc') := by
  simp [tdm_scan_pass, he, hstep]

theorem tdm_scan_pass_no_burst (cfg : TdmConfig) (skb : Skb) :
    ∀ (l : List MptcpSub) (pos : Nat) (acc : ScanAcc),
      (∀ s ∈ l, tdmBurst cfg skb s = false) →
      acc.iter < 256 → acc.full_subs < 256 →
      tdm_scan_pass cfg skb l pos acc = (false, scanOutAcc cfg skb l pos acc) := by
  intro l
  induction l with
  | nil =>
    intro pos acc _ hi hf
    simp [tdm_scan_pass, scanOutAcc, lastIdleRel,
      Nat.mod_eq_of_lt hi, Nat.mod_eq_of_lt hf]
  | cons sub rest ih =>
    intro pos acc hnb hi hf
    have hnbr : ∀ s ∈ rest, tdmBurst cfg skb s = false :=
      fun s hs => hnb s (List.mem_cons_of_mem _ hs)
    by_cases he : tdmElig cfg skb sub
    · have hsubnb : tdmBurst cfg skb sub = false := hnb sub (List.mem_cons_self ..)
      have hnotburst : ¬(0 < sub.quota ∧ sub.quota < cfg.num_segments) := by
        rw [tdmBurst, he] at hsubnb
        simpa using hsubnb
      rw [tdm_scan_pass_cons_false cfg skb sub rest pos acc _ he
        (tdm_scan_step_false cfg pos sub acc hnotburst)]
      rw [ih (pos + 1) _ hnbr (Nat.mod_lt _ (by norm_num))
        (by
          show (if cfg.num_segments ≤ sub.quota then (acc.full_subs + 1) % 256
            else acc.full_subs) < 256
          split
          · exact Nat.mod_lt _ (by norm_num)
          · exact hf)]
      have hidle : tdmIdle cfg skb sub = decide (sub.quota = 0) := by
        rw [tdmIdle, he, Bool.true_and]
      have hfullb : tdmFull cfg skb sub = decide (cfg.num_segments ≤ sub.quota) := by
        rw [tdmFull, he, Bool.true_and]
      rcases hr : lastIdleRel cfg skb rest with _ | p <;>
        simp only [scanOutAcc, lastIdleRel, List.countP_cons, he, hidle, hfullb, hr,
          decide_eq_true_eq, eq_self_iff_true, if_true, Option.map_some',
          Option.map_none', Prod.mk.injEq, ScanAcc.mk.injEq, true_and] <;>
        split_ifs <;>
        simp only [Option.some.injEq, true_and, and_true, and_self,
          eq_self_iff_true] <;>
        (repeat' apply And.intro) <;>
        first
          | rfl
          | omega
    · rw [tdm_scan_pass_cons_inelig cfg skb sub rest pos acc
        (Bool.eq_false_iff.mpr he)]
      rw [ih (pos + 1) acc hnbr hi hf]
      have hidle : tdmIdle cfg skb sub = false := by
        rw [tdmIdle, Bool.eq_false_iff.mpr he, Bool.false_and]
      have hfullb : tdmFull cfg skb sub = false := by
        rw [tdmFull, Bool.eq_false_iff.mpr he, Bool.false_and]
      rcases hr : lastIdleRel cfg skb rest with _ | p <;>
        simp only [scanOutAcc, lastIdleRel, List.countP_cons,
          Bool.eq_false_iff.mpr he, hidle, hfullb, hr, Bool.false_eq_true, if_false,
          Option.map_some', Option.map_none', Option.some.injEq,
          Prod.mk.injEq, ScanAcc.mk.injEq, true_and, add_zero] <;>
        (repeat' apply And.intro) <;>
        first
          | rfl
          | omega

theorem tdm_scan_pass_burst (cfg : TdmConfig) (skb : Skb) :
    ∀ (l : List MptcpSub) (pos : Nat) (acc : ScanAcc) (j : Nat) (s : MptcpSub),
      firstBurstRel cfg skb l = some (j, s) →
      ∃ it fs, tdm_scan_pass cfg skb l pos acc =
        (true, { iter := it, full_subs := fs,
                 split := cfg.num_segments - s.quota, choose := some (pos + j) }) := by
  intro l
  induction l with
  | nil => intro pos acc j s h; simp [firstBurstRel] at h
  | cons sub rest ih =>
    intro pos acc j s h
    by_cases hb : tdmBurst cfg skb sub
    · rw [firstBurstRel, if_pos hb] at h
      obtain ⟨hj, hs⟩ := Prod.mk.injEq .. ▸ Option.some.inj h
      subst hj; subst hs
      have he : tdmElig cfg skb sub = true := by
        rw [tdmBurst, Bool.and_eq_true] at hb
        exact hb.1
      have hq : 0 < sub.quota ∧ sub.quota < cfg.num_segments := by
        rw [tdmBurst, Bool.and_eq_true] at hb
        exact of_decide_eq_true hb.2
      rw [tdm_scan_pass_cons_true cfg skb sub rest pos acc _ he
        (tdm_scan_step_true cfg pos sub acc hq)]
      exact ⟨(acc.iter + 1) % 256, acc.full_subs, by simp⟩
    · rw [firstBurstRel, if_neg hb] at h
      rcases hr : firstBurstRel cfg skb rest with _ | ⟨j', s'⟩
      · rw [hr] at h; simp at h
      · rw [hr, Option.map_some'] at h
        obtain ⟨hj, hs⟩ := Prod.mk.injEq .. ▸ Option.some.inj h
        subst hj; subst hs
        by_cases he : tdmElig cfg skb sub
        · have hnotburst : ¬(0 < sub.quota ∧ sub.quota < cfg.num_segments) := by
            rw [tdmBurst, he] at hb
            simpa using hb
          rw [tdm_scan_pass_cons_false cfg skb sub rest pos acc _ he
            (tdm_scan_step_false cfg pos sub acc hnotburst)]
          obtain ⟨it, fs, hrec⟩ := ih (pos + 1) _ j' s' hr
          refine ⟨it, fs, ?_⟩
          rw [hrec]
          have : pos + 1 + j' = pos + (j' + 1) := by omega
          rw [this]
        · rw [tdm_scan_pass_cons_inelig cfg skb sub rest pos acc
            (Bool.eq_false_iff.mpr he)]
          obtain ⟨it, fs, hrec⟩ := ih (pos + 1) acc j' s' hr
          refine ⟨it, fs, ?_⟩
          rw [hrec]
          have : pos + 1 + j' = pos + (j' + 1) := by omega
          rw [this]

theorem mem_tdm_reset_quotas (cfg : TdmConfig) (skb : Skb) (l : List MptcpSub)
    (s : MptcpSub) (h : s ∈ tdm_reset_quotas cfg skb l) :
    ∃ t ∈ l,
      (tdmElig cfg skb t = true ∧ s = { t with quota := 0 }) ∨
      (tdmElig cfg skb t = false ∧ s = t) := by
  obtain ⟨t, hmem, rfl⟩ := List.mem_map.mp h
  refine ⟨t, hmem, ?_⟩
  by_cases he : tdmElig cfg skb t
  · exact Or.inl ⟨he, by rw [if_pos he]⟩
  · exact Or.inr ⟨Bool.eq_false_iff.mpr he, by rw [if_neg he]⟩

theorem tdm_reset_quotas_countP_elig (cfg : TdmConfig) (skb : Skb)
    (l : List MptcpSub) :
    (tdm_reset_quotas cfg skb l).countP (tdmElig cfg skb) =
      l.countP (tdmElig cfg skb) := by
  rw [tdm_reset_quotas, List.countP_map]
  apply List.countP_congr
  intro t _
  simp only [Function.comp_apply]
  by_cases he : tdmElig cfg skb t
  · rw [if_pos he, tdmElig_quota]
  · rw [if_neg he]

theorem tdm_reset_quotas_no_burst (cfg : TdmConfig) (skb : Skb) (l : List MptcpSub) :
    ∀ s ∈ tdm_reset_quotas cfg skb l, tdmBurst cfg skb s = false := by
  intro s hs
  obtain ⟨t, _, hcase⟩ := mem_tdm_reset_quotas cfg skb l s hs
  rcases hcase with ⟨he, rfl⟩ | ⟨he, rfl⟩
  · rw [tdmBurst]
    have : ({ t with quota := 0 } : MptcpSub).quota = 0 := rfl
    rw [this]
    simp
  · rw [tdmBurst, he, Bool.false_and]

theorem tdm_reset_quotas_countP_full (cfg : TdmConfig) (skb : Skb)
    (l : List MptcpSub) (hR : 1 ≤ cfg.num_segments) :
    (tdm_reset_quotas cfg skb l).countP (tdmFull cfg skb) = 0 := by
  rw [List.countP_eq_zero]
  intro s hs
  obtain ⟨t, _, hcase⟩ := mem_tdm_reset_quotas cfg skb l s hs
  rcases hcase with ⟨he, rfl⟩ | ⟨he, rfl⟩
  · rw [tdmFull]
    have : ({ t with quota := 0 } : MptcpSub).quota = 0 := rfl
    rw [this]
    simp
    omega
  · rw [tdmFull, he, Bool.false_and]
    simp

theorem tdm_reset_quotas_lastIdle_isSome (cfg : TdmConfig) (skb : Skb)
    (l : List MptcpSub) (hn : 0 < l.countP (tdmElig cfg skb)) :
    (lastIdleRel cfg skb (tdm_reset_quotas cfg skb l)).isSome = true := by
  obtain ⟨t, hmem, he⟩ := List.countP_pos.mp hn
  apply lastIdleRel_isSome cfg skb (tdm_reset_quotas cfg skb l) { t with quota := 0 }
  · rw [tdm_reset_quotas]
    refine List.mem_map.mpr ⟨t, hmem, ?_⟩
    rw [if_pos he]
  · rw [tdmIdle, tdmElig_quota, he, Bool.true_and]
    simp

theorem countP_lt_of_witness {α : Type} (p q : α → Bool) :
    ∀ (l : List α), (∀ a ∈ l, p a = true → q a = true) →
      ∀ w ∈ l, q w = true → p w = false → l.countP p < l.countP q := by
  intro l
  induction l with
  | nil => intro _ w hw; simp at hw
  | cons a rest ih =>
    intro hpq w hw hqw hpw
    have hpq_rest : ∀ b ∈ rest, p b = true → q b = true :=
      fun b hb => hpq b (List.mem_cons_of_mem _ hb)
    have hmono : rest.countP p ≤ rest.countP q := List.countP_mono_left hpq_rest
    rcases List.mem_cons.mp hw with h | h
    · subst h
      rw [List.countP_cons, List.countP_cons, hpw, hqw]
      simpa using Nat.lt_succ_of_le hmono
    · have hlt := ih hpq_rest w h hqw hpw
      rw [List.countP_cons, List.countP_cons]
      by_cases hpa : p a = true
      · rw [hpa, hpq a (List.mem_cons_self ..) hpa]
        simpa using hlt
      · rw [Bool.eq_false_iff.mpr hpa]
        simp only [Bool.false_eq_true, if_false, add_zero]
        split <;> omega

theorem tdm_all_full_of_countP_eq (cfg : TdmConfig) (skb : Skb) (l : List MptcpSub)
    (h : l.countP (tdmElig cfg skb) = l.countP (tdmFull cfg skb)) :
    ∀ s ∈ l, tdmElig cfg skb s = true → cfg.num_segments ≤ s.quota := by
  intro s hs he
  by_contra hq
  have hfull : tdmFull cfg skb s = false := by
    rw [tdmFull, he, Bool.true_and, decide_eq_false hq]
  have himp : ∀ a ∈ l, tdmFull cfg skb a = true → tdmElig cfg skb a = true := by
    intro a _ ha
    rw [tdmFull, Bool.and_eq_true] at ha
    exact ha.1
  have hlt := countP_lt_of_witness (tdmFull cfg skb) (tdmElig cfg skb) l
    himp s hs he hfull
  omega

theorem tdm_retry_loop_succ_found (cfg : TdmConfig) (skb : Skb)
    (subs : List MptcpSub) (acc acc' : ScanAcc) (fuel : Nat)
    (hp : tdm_scan_pass cfg skb subs 0 acc = (true, acc')) :
    tdm_retry_loop cfg skb (fuel + 1) subs acc = some (acc', subs) := by
  rw [tdm_retry_loop, hp]

theorem tdm_retry_loop_succ_done (cfg : TdmConfig) (skb : Skb)
    (subs : List MptcpSub) (acc acc' : ScanAcc) (fuel : Nat)
    (hp : tdm_scan_pass cfg skb subs 0 acc = (false, acc'))
    (hc : ¬(acc'.iter ≠ 0 ∧ acc'.iter = acc'.full_subs)) :
    tdm_retry_loop cfg skb (fuel + 1) subs acc = some (acc', subs) := by
  rw [tdm_retry_loop, hp]
  show (if acc'.iter ≠ 0 ∧ acc'.iter = acc'.full_subs then
      tdm_retry_loop cfg skb fuel (tdm_reset_quotas cfg skb subs) acc'
    else some (acc', subs)) = some (acc', subs)
  rw [if_neg hc]

theorem tdm_retry_loop_succ_reset (cfg : TdmConfig) (skb : Skb)
    (subs : List MptcpSub) (acc acc' : ScanAcc) (fuel : Nat)
    (hp : tdm_scan_pass cfg skb subs 0 acc = (false, acc'))
    (hc : acc'.iter ≠ 0 ∧ acc'.iter = acc'.full_subs) :
    tdm_retry_loop cfg skb (fuel + 1) subs acc =
      tdm_retry_loop cfg skb fuel (tdm_reset_quotas cfg skb subs) acc' := by
  rw [tdm_retry_loop, hp]
  show (if acc'.iter ≠ 0 ∧ acc'.iter = acc'.full_subs then
      tdm_retry_loop cfg skb fuel (tdm_reset_quotas cfg skb subs) acc'
    else some (acc', subs)) = _
  rw [if_pos hc]

theorem tdm_retry_loop_burst (cfg : TdmConfig) (skb : Skb) (subs : List MptcpSub)
    (j : Nat) (s : MptcpSub) (hfb : firstBurstRel cfg skb subs = some (j, s)) :
    ∀ fuel, 1 ≤ fuel → ∃ it fs,
      tdm_retry_loop cfg skb fuel subs (tdmInitAcc cfg) =
        some ({ iter := it, full_subs := fs,
                split := cfg.num_segments - s.quota, choose := some j }, subs) := by
  intro fuel hfuel
  obtain ⟨it, fs, hp⟩ := tdm_scan_pass_burst cfg skb subs 0 (tdmInitAcc cfg) j s hfb
  rw [Nat.zero_add] at hp
  cases fuel with
  | zero => omega
  | succ k =>
    exact ⟨it, fs, tdm_retry_loop_succ_found cfg skb subs _ _ k hp⟩

theorem tdm_retry_loop_no_reset (cfg : TdmConfig) (skb : Skb) (subs : List MptcpSub)
    (hnb : firstBurstRel cfg skb subs = none)
    (hc : ¬((scanOutAcc cfg skb subs 0 (tdmInitAcc cfg)).iter ≠ 0 ∧
            (scanOutAcc cfg skb subs 0 (tdmInitAcc cfg)).iter =
              (scanOutAcc cfg skb subs 0 (tdmInitAcc cfg)).full_subs)) :
    ∀ fuel, 1 ≤ fuel →
      tdm_retry_loop cfg skb fuel subs (tdmInitAcc cfg) =
        some (scanOutAcc cfg skb subs 0 (tdmInitAcc cfg), subs) := by
  intro fuel hfuel
  have hp := tdm_scan_pass_no_burst cfg skb subs 0 (tdmInitAcc cfg)
    ((firstBurstRel_none cfg skb subs).mp hnb)
    (by rw [tdmInitAcc]; norm_num) (by rw [tdmInitAcc]; norm_num)
  cases fuel with
  | zero => omega
  | succ k => exact tdm_retry_loop_succ_done cfg skb subs _ _ k hp hc

theorem tdm_retry_loop_reset (cfg : TdmConfig) (skb : Skb) (subs : List MptcpSub)
    (hR : 1 ≤ cfg.num_segments)
    (hnb : firstBurstRel cfg skb subs = none)
    (hc : (scanOutAcc cfg skb subs 0 (tdmInitAcc cfg)).iter ≠ 0 ∧
          (scanOutAcc cfg skb subs 0 (tdmInitAcc cfg)).iter =
            (scanOutAcc cfg skb subs 0 (tdmInitAcc cfg)).full_subs) :
    ∀ fuel, 2 ≤ fuel →
      tdm_retry_loop cfg skb fuel subs (tdmInitAcc cfg) =
        some (scanOutAcc cfg skb (tdm_reset_quotas cfg skb subs) 0
                (scanOutAcc cfg skb subs 0 (tdmInitAcc cfg)),
              tdm_reset_quotas cfg skb subs) := by
  intro fuel hfuel
  have hp1 := tdm_scan_pass_no_burst cfg skb subs 0 (tdmInitAcc cfg)
    ((firstBurstRel_none cfg skb subs).mp hnb)
    (by rw [tdmInitAcc]; norm_num) (by rw [tdmInitAcc]; norm_num)
  have hi1 : (scanOutAcc cfg skb subs 0 (tdmInitAcc cfg)).iter < 256 := by
    rw [scanOutAcc]
    exact Nat.mod_lt _ (by norm_num)
  have hf1 : (scanOutAcc cfg skb subs 0 (tdmInitAcc cfg)).full_subs < 256 := by
    rw [scanOutAcc]
    exact Nat.mod_lt _ (by norm_num)
  have hp2 := tdm_scan_pass_no_burst cfg skb (tdm_reset_quotas cfg skb subs) 0
    (scanOutAcc cfg skb subs 0 (tdmInitAcc cfg))
    (tdm_reset_quotas_no_burst cfg skb subs) hi1 hf1
  have hiter1 : (scanOutAcc cfg skb subs 0 (tdmInitAcc cfg)).iter =
      subs.countP (tdmElig cfg skb) % 256 := by
    simp [scanOutAcc, tdmInitAcc]
  have hiter2 : (scanOutAcc cfg skb (tdm_reset_quotas cfg skb subs) 0
      (scanOutAcc cfg skb subs 0 (tdmInitAcc cfg))).iter =
      ((scanOutAcc cfg skb subs 0 (tdmInitAcc cfg)).iter +
        subs.countP (tdmElig cfg skb)) % 256 := by
    rw [scanOutAcc, tdm_reset_quotas_countP_elig]
  have hfull2 : (scanOutAcc cfg skb (tdm_reset_quotas cfg skb subs) 0
      (scanOutAcc cfg skb subs 0 (tdmInitAcc cfg))).full_subs =
      (scanOutAcc cfg skb subs 0 (tdmInitAcc cfg)).full_subs := by
    show ((scanOutAcc cfg skb subs 0 (tdmInitAcc cfg)).full_subs +
      (tdm_reset_quotas cfg skb subs).countP (tdmFull cfg skb)) % 256 = _
    rw [tdm_reset_quotas_countP_full cfg skb subs hR, Nat.add_zero,
      Nat.mod_eq_of_lt hf1]
  have hc2 : ¬((scanOutAcc cfg skb (tdm_reset_quotas cfg skb subs) 0
        (scanOutAcc cfg skb subs 0 (tdmInitAcc cfg))).iter ≠ 0 ∧
      (scanOutAcc cfg skb (tdm_reset_quotas cfg skb subs) 0
        (scanOutAcc cfg skb subs 0 (tdmInitAcc cfg))).iter =
      (scanOutAcc cfg skb (tdm_reset_quotas cfg skb subs) 0
        (scanOutAcc cfg skb subs 0 (tdmInitAcc cfg))).full_subs) := by
    rw [hiter2, hfull2, hiter1]
    rw [hiter1] at hc
    rcases hc with ⟨hne, _⟩
    intro hcon
    rcases hcon with ⟨_, heq⟩
    omega
  cases fuel with
  | zero => omega
  | succ k =>
    cases k with
    | zero => omega
    | succ m =>
      rw [tdm_retry_loop_succ_reset cfg skb subs _ _ (m + 1) hp1 hc]
      exact tdm_retry_loop_succ_done cfg skb _ _ _ m hp2 hc2

theorem lastIdleRel_eq_none (cfg : TdmConfig) (skb : Skb) :
    ∀ (l : List MptcpSub), (∀ s ∈ l, tdmIdle cfg skb s = false) →
      lastIdleRel cfg skb l = none := by
  intro l
  induction l with
  | nil => intro _; rfl
  | cons sub rest ih =>
    intro h
    rw [lastIdleRel, ih (fun s hs => h s (List.mem_cons_of_mem _ hs)),
      if_neg (by simp [h sub (List.mem_cons_self ..)])]

/-- Exhaustive description of the found block: it echoes the reinject flag,
and either returns NULL leaving the subflow list as the loop left it, or
returns the candidate skb together with a chosen subflow that passed the
final availability re-check (zero_wnd_test = false, cwnd_test = true), the
byte limit split * mss_now, and the quota increment applied at the chosen
position. -/
theorem tdm_found_no_choice (cfg : TdmConfig) (skb : Skb) (r : Int)
    (acc : ScanAcc) (subs' : List MptcpSub) (hch : acc.choose = none) :
    tdm_found cfg skb r acc subs' =
      { skb := none, subsk := none, limit := 0, reinject := r, subs := subs' } := by
  rw [tdm_found, hch]

theorem tdm_found_bad_index (cfg : TdmConfig) (skb : Skb) (r : Int)
    (acc : ScanAcc) (subs' : List MptcpSub) (i : Nat)
    (hch : acc.choose = some i) (hget : subs'[i]? = none) :
    tdm_found cfg skb r acc subs' =
      { skb := none, subsk := none, limit := 0, reinject := r, subs := subs' } := by
  simp [tdm_found, hch, hget]

theorem tdm_found_recheck_fail (cfg : TdmConfig) (skb : Skb) (r : Int)
    (acc : ScanAcc) (subs' : List MptcpSub) (i : Nat) (ch : MptcpSub)
    (hch : acc.choose = some i) (hget : subs'[i]? = some ch)
    (hav : mptcp_tdm_is_available ch (some skb) false true = false) :
    tdm_found cfg skb r acc subs' =
      { skb := none, subsk := none, limit := 0, reinject := r, subs := subs' } := by
  simp [tdm_found, hch, hget, hav]

theorem tdm_found_sel (cfg : TdmConfig) (skb : Skb) (r : Int)
    (acc : ScanAcc) (subs' : List MptcpSub) (i : Nat) (ch : MptcpSub)
    (hch : acc.choose = some i) (hget : subs'[i]? = some ch)
    (hav : mptcp_tdm_is_available ch (some skb) false true = true) :
    tdm_found cfg skb r acc subs' =
      { skb := some skb
        subsk := some ch
        limit := intToU32 acc.split * ch.mss_now % 2 ^ 32
        reinject := r
        subs := subs'.set i
          { ch with quota := ch.quota + tdm_quota_increment skb.len ch.mss_now } } := by
  simp [tdm_found, hch, hget, hav]

/-- Exhaustive description of the found block: it echoes the reinject flag,
and either returns NULL leaving the subflow list as the loop left it, or
returns the candidate skb together with a chosen subflow that passed the
final availability re-check (zero_wnd_test = false, cwnd_test = true), the
byte limit split * mss_now, and the quota increment applied at the chosen
position. -/
theorem tdm_found_cases (cfg : TdmConfig) (skb : Skb) (r : Int) (acc : ScanAcc)
    (subs' : List MptcpSub) :
    (tdm_found cfg skb r acc subs').reinject = r ∧
    (((tdm_found cfg skb r acc subs').subsk = none ∧
      (tdm_found cfg skb r acc subs').subs = subs' ∧
      (tdm_found cfg skb r acc subs').skb = none ∧
      (tdm_found cfg skb r acc subs').limit = 0) ∨
     (∃ i ch, acc.choose = some i ∧ subs'[i]? = some ch ∧
       mptcp_tdm_is_available ch (some skb) false true = true ∧
       (tdm_found cfg skb r acc subs').subsk = some ch ∧
       (tdm_found cfg skb r acc subs').skb = some skb ∧
       (tdm_found cfg skb r acc subs').limit =
         intToU32 acc.split * ch.mss_now % 2 ^ 32 ∧
       (tdm_found cfg skb r acc subs').subs = subs'.set i
         { ch with quota := ch.quota + tdm_quota_increment skb.len ch.mss_now })) := by
  rcases hch : acc.choose with _ | i
  · rw [tdm_found_no_choice cfg skb r acc subs' hch]
    exact ⟨rfl, Or.inl ⟨rfl, rfl, rfl, rfl⟩⟩
  · rcases hget : subs'[i]? with _ | ch
    · rw [tdm_found_bad_index cfg skb r acc subs' i hch hget]
      exact ⟨rfl, Or.inl ⟨rfl, rfl, rfl, rfl⟩⟩
    · by_cases hav : mptcp_tdm_is_available ch (some skb) false true
      · rw [tdm_found_sel cfg skb r acc subs' i ch hch hget hav]
        exact ⟨rfl, Or.inr ⟨i, ch, rfl, hget, hav, rfl, rfl, rfl, rfl⟩⟩
      · rw [tdm_found_recheck_fail cfg skb r acc subs' i ch hch hget
          (Bool.eq_false_iff.mpr hav)]
        exact ⟨rfl, Or.inl ⟨rfl, rfl, rfl, rfl⟩⟩

theorem mptcp_tdm_next_segment'_cases (meta : MetaSk) :
    (∃ skb, mptcp_tdm_next_segment' meta = (some skb, 1) ∧
      meta.reinject_head = some skb ∧
      meta.infinite_mapping_snd = false ∧ meta.send_infinite_mapping = false) ∨
    mptcp_tdm_next_segment' meta = (meta.send_head, 0) := by
  rw [mptcp_tdm_next_segment']
  by_cases hfb : meta.infinite_mapping_snd || meta.send_infinite_mapping
  · rw [if_pos hfb]
    exact Or.inr rfl
  · rw [if_neg hfb]
    rcases hq : meta.reinject_head with _ | skb
    · exact Or.inr rfl
    · refine Or.inl ⟨skb, rfl, rfl, ?_, ?_⟩
      · rw [Bool.or_eq_true] at hfb
        push_neg at hfb
        exact Bool.eq_false_iff.mpr hfb.1
      · rw [Bool.or_eq_true] at hfb
        push_neg at hfb
        exact Bool.eq_false_iff.mpr hfb.2

theorem mptcp_tdm_next_segment_of_inner_none (cfg : TdmConfig) (fuel : Nat)
    (meta : MetaSk) (r : Int)
    (hinner : mptcp_tdm_next_segment' meta = (none, r)) :
    mptcp_tdm_next_segment cfg fuel meta =
      some { skb := none, subsk := none, limit := 0, reinject := r,
             subs := meta.subs } := by
  rw [mptcp_tdm_next_segment, hinner]

theorem mptcp_tdm_next_segment_of_inner_reinject (cfg : TdmConfig) (fuel : Nat)
    (meta : MetaSk) (skb : Skb)
    (hinner : mptcp_tdm_next_segment' meta = (some skb, 1)) :
    mptcp_tdm_next_segment cfg fuel meta =
      (match tdm_get_available_subflow meta (some skb) false with
       | (none, _) =>
         some { skb := none, subsk := none, limit := 0, reinject := 1,
                subs := meta.subs }
       | (some sub, skb') =>
         some { skb := skb', subsk := some sub, limit := 0, reinject := 1,
                subs := meta.subs }) := by
  rw [mptcp_tdm_next_segment, hinner]
  show (if (1 : Int) = 1 then _ else _) = _
  rw [if_pos rfl]

theorem mptcp_tdm_next_segment_of_inner_quota (cfg : TdmConfig) (fuel : Nat)
    (meta : MetaSk) (skb : Skb)
    (hinner : mptcp_tdm_next_segment' meta = (some skb, 0)) :
    mptcp_tdm_next_segment cfg fuel meta =
      (match tdm_retry_loop cfg skb fuel meta.subs (tdmInitAcc cfg) with
       | none => none
       | some (acc, subs') => some (tdm_found cfg skb 0 acc subs')) := by
  rw [mptcp_tdm_next_segment, hinner]
  show (if (0 : Int) = 1 then _ else _) = _
  rw [if_neg (by norm_num)]

/-- The two-scan behaviour of the retry loop for a positive round size: the
result at fuel 2 is the result at every larger fuel, it always exists, and
the subflow list is either untouched or has gone through exactly one quota
reset, in which case the scan cursor holds a last idle eligible subflow. -/
theorem tdm_retry_loop_two_spec (cfg : TdmConfig) (skb : Skb)
    (subs : List MptcpSub) (hR : 1 ≤ cfg.num_segments) :
    ∃ acc subs₂,
      tdm_retry_loop cfg skb 2 subs (tdmInitAcc cfg) = some (acc, subs₂) ∧
      (∀ fuel, 2 ≤ fuel →
        tdm_retry_loop cfg skb fuel subs (tdmInitAcc cfg) = some (acc, subs₂)) ∧
      (subs₂ = subs ∨
        (subs₂ = tdm_reset_quotas cfg skb subs ∧
         subs.countP (tdmElig cfg skb) % 256 ≠ 0 ∧
         subs.countP (tdmElig cfg skb) % 256 =
           subs.countP (tdmFull cfg skb) % 256 ∧
         ∃ j s, lastIdleRel cfg skb subs₂ = some (j, s) ∧
           acc.choose = some j ∧ s.quota = 0 ∧
           acc.split = cfg.num_segments)) := by
  rcases hfb : firstBurstRel cfg skb subs with _ | ⟨j, s⟩
  · by_cases hc : (scanOutAcc cfg skb subs 0 (tdmInitAcc cfg)).iter ≠ 0 ∧
        (scanOutAcc cfg skb subs 0 (tdmInitAcc cfg)).iter =
          (scanOutAcc cfg skb subs 0 (tdmInitAcc cfg)).full_subs
    · refine ⟨scanOutAcc cfg skb (tdm_reset_quotas cfg skb subs) 0
          (scanOutAcc cfg skb subs 0 (tdmInitAcc cfg)),
        tdm_reset_quotas cfg skb subs,
        tdm_retry_loop_reset cfg skb subs hR hfb hc 2 (le_refl 2),
        fun fuel hf => tdm_retry_loop_reset cfg skb subs hR hfb hc fuel hf,
        Or.inr ⟨rfl, ?_, ?_, ?_⟩⟩
      · have h1 : (scanOutAcc cfg skb subs 0 (tdmInitAcc cfg)).iter =
            subs.countP (tdmElig cfg skb) % 256 := by
          simp [scanOutAcc, tdmInitAcc]
        rw [h1] at hc
        exact hc.1
      · have h1 : (scanOutAcc cfg skb subs 0 (tdmInitAcc cfg)).iter =
            subs.countP (tdmElig cfg skb) % 256 := by
          simp [scanOutAcc, tdmInitAcc]
        have h2 : (scanOutAcc cfg skb subs 0 (tdmInitAcc cfg)).full_subs =
            subs.countP (tdmFull cfg skb) % 256 := by
          simp [scanOutAcc, tdmInitAcc]
        rw [h1, h2] at hc
        exact hc.2
      · have hn : 0 < subs.countP (tdmElig cfg skb) := by
          have h1 : (scanOutAcc cfg skb subs 0 (tdmInitAcc cfg)).iter =
              subs.countP (tdmElig cfg skb) % 256 := by
            simp [scanOutAcc, tdmInitAcc]
          rw [h1] at hc
          rcases hc with ⟨hne, _⟩
          omega
        have hsome := tdm_reset_quotas_lastIdle_isSome cfg skb subs hn
        rcases hli : lastIdleRel cfg skb (tdm_reset_quotas cfg skb subs)
          with _ | ⟨j, s⟩
        · rw [hli] at hsome; simp at hsome
        · obtain ⟨_, hidle⟩ := lastIdleRel_get cfg skb _ j s hli
          have hq0 : s.quota = 0 := by
            rw [tdmIdle, Bool.and_eq_true] at hidle
            exact of_decide_eq_true hidle.2
          refine ⟨j, s, rfl, ?_, hq0, ?_⟩
          · show (match lastIdleRel cfg skb (tdm_reset_quotas cfg skb subs) with
              | some p => some (0 + p.1)
              | none => (scanOutAcc cfg skb subs 0 (tdmInitAcc cfg)).choose) = some j
            rw [hli]
            simp
          · show (match lastIdleRel cfg skb (tdm_reset_quotas cfg skb subs) with
              | some _ => cfg.num_segments
              | none => (scanOutAcc cfg skb subs 0 (tdmInitAcc cfg)).split) =
              cfg.num_segments
            rw [hli]
    · exact ⟨scanOutAcc cfg skb subs 0 (tdmInitAcc cfg), subs,
        tdm_retry_loop_no_reset cfg skb subs hfb hc 2 (by norm_num),
        fun fuel hf => tdm_retry_loop_no_reset cfg skb subs hfb hc fuel
          (by omega),
        Or.inl rfl⟩
  · obtain ⟨it, fs, hp⟩ :=
      tdm_scan_pass_burst cfg skb subs 0 (tdmInitAcc cfg) j s hfb
    rw [Nat.zero_add] at hp
    refine ⟨_, subs, tdm_retry_loop_succ_found cfg skb subs _ _ 1 hp,
      fun fuel hf => ?_, Or.inl rfl⟩
    cases fuel with
    | zero => omega
    | succ k => exact tdm_retry_loop_succ_found cfg skb subs _ _ k hp

/-- A fully established, uncongested subflow with path index 1, an open
receive window, mss 1000 and an idle quota.  Its TDN ordinal matches its
path index (curr_tdn = path_index - 1). -/
def subOk : MptcpSub :=
  { path_index := 1, curr_tdn := 0, can_send := true, pre_established := false,
    pf := false, ca_loss := false, is_reno := true, snd_una := 0, high_seq := 0,
    fully_established := true, second_packet := false, last_end_data_seq := 0,
    packets_in_flight := 0, snd_cwnd := 10, mss_cache := 1000, write_seq := 0,
    snd_nxt := 0, wnd_end := 100000, mss_now := 1000, quota := 0 }

/-- A 500-byte data segment that has never been carried on any path. -/
def skb0 : Skb := { seq := 0, len := 500, path_mask := 0, is_data_fin := false }

/-- A small round size for concrete runs: R = 10, cwnd filling required. -/
def cfg0 : TdmConfig := { num_segments := 10, cwnd_limited := true }

/-- A connection in fallback mode (infinite_mapping_snd set) with one
eligible idle subflow and a pending 500-byte segment. -/
def metaFb : MetaSk :=
  { subs := [subOk], rcv_shutdown := false, dfin_path_index := 1,
    infinite_mapping_snd := true, send_infinite_mapping := false,
    reinject_head := none, send_head := some skb0 }

/-- A subflow identical to subOk except that its write cursor has reached the
receiver-advertised window boundary: it fails the zero-window test but
passes every other check. -/
def subZW : MptcpSub :=
  { subOk with write_seq := 200000, snd_nxt := 200000, wnd_end := 100000 }

/-- A connection whose only subflow is zero-window blocked, with a pending
segment and no reinjection traffic. -/
def metaZW : MetaSk :=
  { subs := [subZW], rcv_shutdown := false, dfin_path_index := 1,
    infinite_mapping_snd := false, send_infinite_mapping := false,
    reinject_head := none, send_head := some skb0 }

/-- The designated close-signal subflow of metaC5: path index 1, flagged
PossiblyFailed, hence ineligible. -/
def subPF1 : MptcpSub := { subOk with pf := true }

/-- A second, eligible subflow with path index 2 (ordinal matching). -/
def sub2 : MptcpSub := { subOk with path_index := 2, curr_tdn := 1 }

/-- A close-signal (data_fin) segment. -/
def skbFin : Skb := { seq := 0, len := 100, path_mask := 0, is_data_fin := true }

/-- Receive side shut down, designated close path 1 is ineligible, path 2 is
eligible: the scan that follows the data_fin pre-loop can pick path 2. -/
def metaC5 : MetaSk :=
  { subs := [subPF1, sub2], rcv_shutdown := true, dfin_path_index := 1,
    infinite_mapping_snd := false, send_infinite_mapping := false,
    reinject_head := none, send_head := none }

/-- A connection whose only subflow is ineligible (PossiblyFailed). -/
def metaC8 : MetaSk :=
  { subs := [subPF1], rcv_shutdown := false, dfin_path_index := 1,
    infinite_mapping_snd := false, send_infinite_mapping := false,
    reinject_head := none, send_head := none }

/-- A connection with one eligible subflow and a waiting reinjection-queue
segment. -/
def metaRe : MetaSk :=
  { subs := [subOk], rcv_shutdown := false, dfin_path_index := 1,
    infinite_mapping_snd := false, send_infinite_mapping := false,
    reinject_head := some skb0, send_head := none }

/-- An ordinary one-subflow connection with a pending segment. -/
def metaOk : MetaSk :=
  { subs := [subOk], rcv_shutdown := false, dfin_path_index := 1,
    infinite_mapping_snd := false, send_infinite_mapping := false,
    reinject_head := none, send_head := some skb0 }

/-- C1.  The claim says an ordinal (curr_tdn) mismatch is only a diagnostic
and never by itself makes a path ineligible.  Counterexample: a subflow that
passes every other check is accepted, and the same subflow with only
curr_tdn changed (5 instead of path_index - 1 = 0) is rejected, so the
mismatch alone flips the verdict to false. -/
theorem c1_ordinal_gate_counterexample :
    mptcp_tdm_is_available { subOk with curr_tdn := 5 } (some skb0) true true =
      false ∧
    mptcp_tdm_is_available subOk (some skb0) true true = true := by
  constructor <;> decide

/-- C1 (amended).  The ordinal check is a hard gate: whenever curr_tdn
differs from path_index - 1, mptcp_tdm_is_available logs the diagnostic and
returns false, regardless of the segment and of every other check. -/
theorem c1_ordinal_mismatch_rejects (sub : MptcpSub) (skb : Option Skb)
    (zero_wnd_test cwnd_test : Bool)
    (h : sub.curr_tdn ≠ sub.path_index - 1) :
    mptcp_tdm_is_available sub skb zero_wnd_test cwnd_test = false := by
  rw [mptcp_tdm_is_available, if_pos (by simpa using h)]

theorem c1_ordinal_mismatch_rejects_witness :
    ({ subOk with curr_tdn := 5 } : MptcpSub).curr_tdn ≠
      ({ subOk with curr_tdn := 5 } : MptcpSub).path_index - 1 ∧
    mptcp_tdm_is_available { subOk with curr_tdn := 5 } (some skb0) true true =
      false :=
  ⟨by decide,
   c1_ordinal_mismatch_rejects { subOk with curr_tdn := 5 } (some skb0) true
     true (by decide)⟩

/-- C9.  The claim says a round size R ≤ 0 is rejected at configuration
time.  The code installs num_segments through module_param with no bounds
check, so the store accepts 0; and with R = 0 in effect the scheduling loop
is not bounded by two scans: on a connection with one eligible idle subflow
the loop has not returned after two full scans (the quota-0 subflow counts
as Full when R = 0, so every pass triggers the reset branch again). -/
theorem c9_round_size_not_validated :
    num_segments_param_store 0 = 0 ∧
    tdm_retry_loop { num_segments := 0, cwnd_limited := true } skb0 2 [subOk]
      (tdmInitAcc { num_segments := 0, cwnd_limited := true }) = none :=
  ⟨rfl, by decide⟩

/-- C4.  The claim says that in fallback mode next_segment returns the
primary queue head with no quota accounting.  Counterexample: on a
fallback-mode connection (infinite_mapping_snd set) with one eligible idle
subflow, the call selects the subflow through the quota scan, computes a
quota-based byte limit (10 * 1000) and increments the subflow's quota from
0 to 1, so quota accounting did happen. -/
theorem c4_fallback_counterexample :
    metaFb.infinite_mapping_snd = true ∧
    mptcp_tdm_next_segment cfg0 2 metaFb =
      some { skb := some skb0, subsk := some subOk, limit := 10000,
             reinject := 0, subs := [{ subOk with quota := 1 }] } ∧
    [({ subOk with quota := 1 } : MptcpSub)] ≠ metaFb.subs := by
  refine ⟨rfl, by decide, by decide⟩

/-- C4 (amended).  Fallback mode only changes where the candidate segment is
taken from: the reinjection queue is ignored and the primary send head is
used, after which the call behaves exactly as it would with an empty
reinjection queue, quota logic included. -/
theorem c4_fallback_skips_reinject_queue_only (cfg : TdmConfig) (fuel : Nat)
    (meta : MetaSk)
    (hfb : meta.infinite_mapping_snd = true ∨ meta.send_infinite_mapping = true) :
    mptcp_tdm_next_segment cfg fuel meta =
      mptcp_tdm_next_segment cfg fuel { meta with reinject_head := none } := by
  have hor : (meta.infinite_mapping_snd || meta.send_infinite_mapping) = true := by
    rcases hfb with h | h <;> simp [h]
  have h1 : mptcp_tdm_next_segment' meta = (meta.send_head, 0) := by
    rw [mptcp_tdm_next_segment', if_pos hor]
  have h2 : mptcp_tdm_next_segment' { meta with reinject_head := none } =
      (meta.send_head, 0) := by
    rw [mptcp_tdm_next_segment', if_pos hor]
  clear h2
  rcases hsh : meta.send_head with _ | skb
  · rw [mptcp_tdm_next_segment_of_inner_none cfg fuel meta 0 (by rw [h1, hsh]),
      mptcp_tdm_next_segment_of_inner_none cfg fuel _ 0
        (by rw [mptcp_tdm_next_segment', if_pos hor])]
  · rw [mptcp_tdm_next_segment_of_inner_quota cfg fuel meta skb (by rw [h1, hsh]),
      mptcp_tdm_next_segment_of_inner_quota cfg fuel _ skb
        (by rw [mptcp_tdm_next_segment', if_pos hor])]

theorem c4_fallback_skips_reinject_queue_only_witness :
    (metaFb.infinite_mapping_snd = true ∨ metaFb.send_infinite_mapping = true) ∧
    mptcp_tdm_next_segment cfg0 2 metaFb =
      mptcp_tdm_next_segment cfg0 2 { metaFb with reinject_head := none } :=
  ⟨Or.inl rfl,
   c4_fallback_skips_reinject_queue_only cfg0 2 metaFb (Or.inl rfl)⟩

/-- C5.  The claim says that for a close-signal segment with a designated
close path, get_path returns that path or none, never another path.
Counterexample: receive side shut down, data_fin segment, designated close
path 1 ineligible (PossiblyFailed), path 2 eligible: the call returns path
2, whose index differs from the designated index. -/
theorem c5_close_signal_counterexample :
    metaC5.rcv_shutdown = true ∧ skbFin.is_data_fin = true ∧
    mptcp_tdm_is_available subPF1 (some skbFin) true true = false ∧
    (tdm_get_available_subflow metaC5 (some skbFin) true).1 = some sub2 ∧
    sub2.path_index ≠ metaC5.dfin_path_index := by
  refine ⟨rfl, rfl, by decide, by decide, by decide⟩

/-- C5 (amended).  When the connection is in receive shutdown and the
segment is the close signal, the data_fin pre-loop returns the first
subflow whose index equals dfin_path_index and which is available; only
when that search fails does control fall through to the generic scan, which
may return a different path. -/
theorem c5_close_signal_designated_eligible (meta : MetaSk) (skb : Skb)
    (zwt : Bool) (ch : MptcpSub)
    (hsd : meta.rcv_shutdown = true) (hdf : skb.is_data_fin = true)
    (hfind : meta.subs.find? (fun sub =>
        (sub.path_index == meta.dfin_path_index) &&
          mptcp_tdm_is_available sub (some skb) zwt true) = some ch) :
    (tdm_get_available_subflow meta (some skb) zwt).1 = some ch := by
  simp [tdm_get_available_subflow, hsd, hdf, hfind]

/-- A one-subflow connection whose designated close path is eligible. -/
def metaC5W : MetaSk :=
  { subs := [subOk], rcv_shutdown := true, dfin_path_index := 1,
    infinite_mapping_snd := false, send_infinite_mapping := false,
    reinject_head := none, send_head := none }

theorem c5_close_signal_designated_eligible_witness :
    metaC5W.rcv_shutdown = true ∧ skbFin.is_data_fin = true ∧
    metaC5W.subs.find? (fun sub =>
      (sub.path_index == metaC5W.dfin_path_index) &&
        mptcp_tdm_is_available sub (some skbFin) true true) = some subOk ∧
    (tdm_get_available_subflow metaC5W (some skbFin) true).1 = some subOk :=
  ⟨rfl, rfl, by decide,
   c5_close_signal_designated_eligible metaC5W skbFin true subOk rfl rfl
     (by decide)⟩

/-- C6.  The claim says the final re-check before returning a quota-branch
decision includes the zero-window test.  Counterexample: a connection whose
only subflow is zero-window blocked (write_seq has reached wnd_end) but
passes every other check; the call still returns a decision on that
subflow, although the subflow fails is_available with the zero-window test
enabled — so the re-check did not include the zero-window test. -/
theorem c6_recheck_counterexample :
    mptcp_tdm_next_segment cfg0 2 metaZW =
      some { skb := some skb0, subsk := some subZW, limit := 10000,
             reinject := 0, subs := [{ subZW with quota := 1 }] } ∧
    mptcp_tdm_is_available subZW (some skb0) true true = false := by
  constructor <;> decide

/-- C6 (amended).  The quota branch re-validates the selected subflow with
the congestion-window test forced on but the zero-window test disabled
(is_available with zero_wnd_test = false, cwnd_test = true): a decision is
returned only when this re-check passes, and a failed re-check yields a
NULL return instead of the stale decision. -/
theorem c6_final_recheck_no_zero_window (cfg : TdmConfig) (fuel : Nat)
    (meta : MetaSk) (out : SchedOut) (ch : MptcpSub) (s : Skb)
    (hout : mptcp_tdm_next_segment cfg fuel meta = some out)
    (hrj : out.reinject = 0)
    (hch : out.subsk = some ch) (hskb : out.skb = some s) :
    mptcp_tdm_is_available ch (some s) false true = true := by
  rcases mptcp_tdm_next_segment'_cases meta with ⟨skb, hinner, _, _, _⟩ | hinner
  · rw [mptcp_tdm_next_segment_of_inner_reinject cfg fuel meta skb hinner]
      at hout
    rcases hga : tdm_get_available_subflow meta (some skb) false with ⟨osub, oskb⟩
    rw [hga] at hout
    rcases osub with _ | sub
    · cases Option.some.inj hout
      simp at hrj
    · cases Option.some.inj hout
      simp at hrj
  · rcases hsh : meta.send_head with _ | skb
    · rw [hsh] at hinner
      rw [mptcp_tdm_next_segment_of_inner_none cfg fuel meta 0 hinner] at hout
      cases Option.some.inj hout
      simp at hch
    · rw [hsh] at hinner
      rw [mptcp_tdm_next_segment_of_inner_quota cfg fuel meta skb hinner] at hout
      rcases hloop : tdm_retry_loop cfg skb fuel meta.subs (tdmInitAcc cfg)
        with _ | ⟨acc, subs₂⟩
      · rw [hloop] at hout
        exact absurd hout (by simp)
      · rw [hloop] at hout
        cases Option.some.inj hout
        obtain ⟨-, hc⟩ := tdm_found_cases cfg skb 0 acc subs₂
        rcases hc with ⟨hnone, -, -, -⟩ | ⟨i, ch', -, -, hav, hsk, hsb, -, -⟩
        · rw [hnone] at hch
          simp at hch
        · rw [hsk] at hch
          rw [hsb] at hskb
          cases Option.some.inj hch
          cases Option.some.inj hskb
          exact hav

theorem c6_final_recheck_no_zero_window_witness :
    mptcp_tdm_next_segment cfg0 2 metaZW =
      some { skb := some skb0, subsk := some subZW, limit := 10000,
             reinject := 0, subs := [{ subZW with quota := 1 }] } ∧
    mptcp_tdm_is_available subZW (some skb0) false true = true :=
  ⟨by decide,
   c6_final_recheck_no_zero_window cfg0 2 metaZW
     { skb := some skb0, subsk := some subZW, limit := 10000,
       reinject := 0, subs := [{ subZW with quota := 1 }] }
     subZW skb0 (by decide) rfl rfl rfl⟩

/-- C2.  For a positive round size the scheduler terminates within two
scans: the result of next_segment at fuel 2 equals its result at any larger
fuel and is never the fuel-exhaustion marker; moreover the retry loop
either leaves the subflow list untouched (at most one scan sufficed to
decide) or performs exactly one quota reset, after which the second scan
has selected a last idle (quota = 0) eligible subflow. -/
theorem c2_next_segment_two_scan_termination (cfg : TdmConfig) (meta : MetaSk)
    (hR : 1 ≤ cfg.num_segments) :
    (∀ fuel, 2 ≤ fuel →
      mptcp_tdm_next_segment cfg fuel meta = mptcp_tdm_next_segment cfg 2 meta) ∧
    (mptcp_tdm_next_segment cfg 2 meta).isSome = true ∧
    (∀ skb acc subs₂, mptcp_tdm_next_segment' meta = (some skb, 0) →
      tdm_retry_loop cfg skb 2 meta.subs (tdmInitAcc cfg) = some (acc, subs₂) →
      subs₂ = meta.subs ∨
        (subs₂ = tdm_reset_quotas cfg skb meta.subs ∧
         ∃ j s, lastIdleRel cfg skb subs₂ = some (j, s) ∧
           acc.choose = some j ∧ s.quota = 0)) := by
  refine ⟨?_, ?_, ?_⟩
  · intro fuel hf
    rcases mptcp_tdm_next_segment'_cases meta with ⟨skb, hinner, -, -, -⟩ | hinner
    · rw [mptcp_tdm_next_segment_of_inner_reinject cfg fuel meta skb hinner,
        mptcp_tdm_next_segment_of_inner_reinject cfg 2 meta skb hinner]
    · rcases hsh : meta.send_head with _ | skb
      · rw [hsh] at hinner
        rw [mptcp_tdm_next_segment_of_inner_none cfg fuel meta 0 hinner,
          mptcp_tdm_next_segment_of_inner_none cfg 2 meta 0 hinner]
      · rw [hsh] at hinner
        rw [mptcp_tdm_next_segment_of_inner_quota cfg fuel meta skb hinner,
          mptcp_tdm_next_segment_of_inner_quota cfg 2 meta skb hinner]
        obtain ⟨acc, subs₂, h2, hall, -⟩ :=
          tdm_retry_loop_two_spec cfg skb meta.subs hR
        rw [h2, hall fuel hf]
  · rcases mptcp_tdm_next_segment'_cases meta with ⟨skb, hinner, -, -, -⟩ | hinner
    · rw [mptcp_tdm_next_segment_of_inner_reinject cfg 2 meta skb hinner]
      rcases hga : tdm_get_available_subflow meta (some skb) false
        with ⟨osub, oskb⟩
      rcases osub with _ | sub <;> rfl
    · rcases hsh : meta.send_head with _ | skb
      · rw [hsh] at hinner
        rw [mptcp_tdm_next_segment_of_inner_none cfg 2 meta 0 hinner]
        rfl
      · rw [hsh] at hinner
        rw [mptcp_tdm_next_segment_of_inner_quota cfg 2 meta skb hinner]
        obtain ⟨acc, subs₂, h2, -, -⟩ :=
          tdm_retry_loop_two_spec cfg skb meta.subs hR
        rw [h2]
        rfl
  · intro skb acc subs₂ hinner hloop
    obtain ⟨acc', subs₂', h2, -, hcases⟩ :=
      tdm_retry_loop_two_spec cfg skb meta.subs hR
    rw [h2] at hloop
    obtain ⟨ha, hs⟩ := Prod.mk.injEq .. ▸ Option.some.inj hloop
    subst ha; subst hs
    rcases hcases with hsame | ⟨hrs, -, -, j, s, hli, hchoose, hq0, -⟩
    · exact Or.inl hsame
    · exact Or.inr ⟨hrs, j, s, hli, hchoose, hq0⟩

theorem c2_next_segment_two_scan_termination_witness :
    1 ≤ cfg0.num_segments ∧
    ((∀ fuel, 2 ≤ fuel →
      mptcp_tdm_next_segment cfg0 fuel metaOk =
        mptcp_tdm_next_segment cfg0 2 metaOk) ∧
    (mptcp_tdm_next_segment cfg0 2 metaOk).isSome = true ∧
    (∀ skb acc subs₂, mptcp_tdm_next_segment' metaOk = (some skb, 0) →
      tdm_retry_loop cfg0 skb 2 metaOk.subs (tdmInitAcc cfg0) = some (acc, subs₂) →
      subs₂ = metaOk.subs ∨
        (subs₂ = tdm_reset_quotas cfg0 skb metaOk.subs ∧
         ∃ j s, lastIdleRel cfg0 skb subs₂ = some (j, s) ∧
           acc.choose = some j ∧ s.quota = 0))) :=
  ⟨by decide,
   c2_next_segment_two_scan_termination cfg0 metaOk (by decide)⟩

/-- C10.  A decision served from the reinjection queue keeps the byte limit
at its entry value 0, leaves every quota untouched, and delegates the path
choice to tdm_get_available_subflow with the zero-window test disabled
(literal false); the returned skb is the reinject-queue head as left by that
call. -/
theorem c10_reinject_frame_effect (cfg : TdmConfig) (fuel : Nat)
    (meta : MetaSk) (out : SchedOut)
    (hout : mptcp_tdm_next_segment cfg fuel meta = some out)
    (hrj : out.reinject = 1) :
    out.limit = 0 ∧ out.subs = meta.subs ∧
    ∃ skb, meta.reinject_head = some skb ∧
      out.subsk = (tdm_get_available_subflow meta (some skb) false).1 ∧
      (out.subsk = none → out.skb = none) ∧
      (out.subsk.isSome = true →
        out.skb = (tdm_get_available_subflow meta (some skb) false).2) := by
  rcases mptcp_tdm_next_segment'_cases meta with ⟨skb, hinner, hq, -, -⟩ | hinner
  · rw [mptcp_tdm_next_segment_of_inner_reinject cfg fuel meta skb hinner]
      at hout
    rcases hga : tdm_get_available_subflow meta (some skb) false with ⟨osub, oskb⟩
    rw [hga] at hout
    rcases osub with _ | sub
    · cases Option.some.inj hout
      exact ⟨rfl, rfl, skb, hq, by rw [hga], fun _ => rfl, by simp⟩
    · cases Option.some.inj hout
      exact ⟨rfl, rfl, skb, hq, by rw [hga], by simp, fun _ => by rw [hga]⟩
  · rcases hsh : meta.send_head with _ | skb
    · rw [hsh] at hinner
      rw [mptcp_tdm_next_segment_of_inner_none cfg fuel meta 0 hinner] at hout
      cases Option.some.inj hout
      simp at hrj
    · rw [hsh] at hinner
      rw [mptcp_tdm_next_segment_of_inner_quota cfg fuel meta skb hinner] at hout
      rcases hloop : tdm_retry_loop cfg skb fuel meta.subs (tdmInitAcc cfg)
        with _ | ⟨acc, subs₂⟩
      · rw [hloop] at hout
        exact absurd hout (by simp)
      · rw [hloop] at hout
        cases Option.some.inj hout
        obtain ⟨hr, -⟩ := tdm_found_cases cfg skb 0 acc subs₂
        rw [hr] at hrj
        simp at hrj

theorem c10_reinject_frame_effect_witness :
    mptcp_tdm_next_segment cfg0 2 metaRe =
      some { skb := some skb0, subsk := some subOk, limit := 0,
             reinject := 1, subs := [subOk] } ∧
    ({ skb := some skb0, subsk := some subOk, limit := 0,
       reinject := 1, subs := [subOk] } : SchedOut).limit = 0 ∧
    ({ skb := some skb0, subsk := some subOk, limit := 0,
       reinject := 1, subs := [subOk] } : SchedOut).subs = metaRe.subs ∧
    ∃ skb, metaRe.reinject_head = some skb ∧
      ({ skb := some skb0, subsk := some subOk, limit := 0,
         reinject := 1, subs := [subOk] } : SchedOut).subsk =
        (tdm_get_available_subflow metaRe (some skb) false).1 ∧
      (({ skb := some skb0, subsk := some subOk, limit := 0,
          reinject := 1, subs := [subOk] } : SchedOut).subsk = none →
        ({ skb := some skb0, subsk := some subOk, limit := 0,
           reinject := 1, subs := [subOk] } : SchedOut).skb = none) ∧
      (({ skb := some skb0, subsk := some subOk, limit := 0,
          reinject := 1, subs := [subOk] } : SchedOut).subsk.isSome = true →
        ({ skb := some skb0, subsk := some subOk, limit := 0,
           reinject := 1, subs := [subOk] } : SchedOut).skb =
          (tdm_get_available_subflow metaRe (some skb) false).2) :=
  ⟨by decide,
   (c10_reinject_frame_effect cfg0 2 metaRe
     { skb := some skb0, subsk := some subOk, limit := 0,
       reinject := 1, subs := [subOk] } (by decide) rfl).1,
   (c10_reinject_frame_effect cfg0 2 metaRe
     { skb := some skb0, subsk := some subOk, limit := 0,
       reinject := 1, subs := [subOk] } (by decide) rfl).2.1,
   (c10_reinject_frame_effect cfg0 2 metaRe
     { skb := some skb0, subsk := some subOk, limit := 0,
       reinject := 1, subs := [subOk] } (by decide) rfl).2.2⟩

/-- C3.  One next_segment call changes quota state in exactly two ways: the
round-exhaustion reset, which fires only when at least one subflow is
eligible and every eligible subflow's quota has reached num_segments, and
the selection increment at the chosen position, which adds
DIV_ROUND_UP(len, mss_now) when the segment is longer than the subflow's
mss and 1 otherwise.  Calls that return a reinjection decision or no
decision leave quotas exactly as the (possibly reset) loop left them, and a
quota never decreases except through the reset. -/
theorem c3_quota_mutation_shape (cfg : TdmConfig) (meta : MetaSk)
    (hR : 1 ≤ cfg.num_segments) (hlen : meta.subs.length ≤ 255) :
    ∃ out, mptcp_tdm_next_segment cfg 2 meta = some out ∧
      ((out.reinject = 1 ∧ out.subs = meta.subs) ∨
       ∃ (skb : Skb) (didReset : Bool) (base : List MptcpSub),
         out.reinject = 0 ∧
         base = (if didReset = true then tdm_reset_quotas cfg skb meta.subs
                 else meta.subs) ∧
         (didReset = true →
            0 < meta.subs.countP (tdmElig cfg skb) ∧
            ∀ s ∈ meta.subs, tdmElig cfg skb s = true →
              cfg.num_segments ≤ s.quota) ∧
         ((out.subsk = none ∧ out.subs = base) ∨
          ∃ i ch, base[i]? = some ch ∧ out.subsk = some ch ∧
            out.subs = base.set i
              { ch with quota :=
                  ch.quota + tdm_quota_increment skb.len ch.mss_now })) := by
  rcases mptcp_tdm_next_segment'_cases meta with ⟨skb, hinner, -, -, -⟩ | hinner
  · rw [mptcp_tdm_next_segment_of_inner_reinject cfg 2 meta skb hinner]
    rcases hga : tdm_get_available_subflow meta (some skb) false with ⟨osub, oskb⟩
    rcases osub with _ | sub
    · exact ⟨_, rfl, Or.inl ⟨rfl, rfl⟩⟩
    · exact ⟨_, rfl, Or.inl ⟨rfl, rfl⟩⟩
  · rcases hsh : meta.send_head with _ | skb
    · rw [hsh] at hinner
      rw [mptcp_tdm_next_segment_of_inner_none cfg 2 meta 0 hinner]
      refine ⟨_, rfl, Or.inr ⟨skb0, false, meta.subs, rfl, rfl,
        fun h => absurd h Bool.false_ne_true, Or.inl ⟨rfl, rfl⟩⟩⟩
    · rw [hsh] at hinner
      rw [mptcp_tdm_next_segment_of_inner_quota cfg 2 meta skb hinner]
      obtain ⟨acc, subs₂, h2, -, hcases⟩ :=
        tdm_retry_loop_two_spec cfg skb meta.subs hR
      rw [h2]
      obtain ⟨hr, hfnd⟩ := tdm_found_cases cfg skb 0 acc subs₂
      rcases hcases with hsame | ⟨hrs, hne, heq, -⟩
      · refine ⟨_, rfl, Or.inr ⟨skb, false, subs₂, hr, by simp [hsame], ?_, ?_⟩⟩
        · exact fun h => absurd h Bool.false_ne_true
        · rcases hfnd with ⟨h1, h2', -, -⟩ | ⟨i, ch, -, hget, -, hsk, -, -, hsubs⟩
          · exact Or.inl ⟨h1, h2'⟩
          · exact Or.inr ⟨i, ch, hget, hsk, hsubs⟩
      · have hn : meta.subs.countP (tdmElig cfg skb) ≤ 255 :=
          le_trans (List.countP_le_length _) hlen
        have hm : meta.subs.countP (tdmFull cfg skb) ≤ 255 :=
          le_trans (List.countP_le_length _) hlen
        have heq' : meta.subs.countP (tdmElig cfg skb) =
            meta.subs.countP (tdmFull cfg skb) := by omega
        refine ⟨_, rfl, Or.inr ⟨skb, true, subs₂, hr, by simp [hrs],
          fun _ => ⟨by omega, tdm_all_full_of_countP_eq cfg skb meta.subs heq'⟩,
          ?_⟩⟩
        rcases hfnd with ⟨h1, h2', -, -⟩ | ⟨i, ch, -, hget, -, hsk, -, -, hsubs⟩
        · exact Or.inl ⟨h1, h2'⟩
        · exact Or.inr ⟨i, ch, hget, hsk, hsubs⟩

theorem c3_quota_mutation_shape_witness :
    1 ≤ cfg0.num_segments ∧ metaOk.subs.length ≤ 255 ∧
    (∃ out, mptcp_tdm_next_segment cfg0 2 metaOk = some out ∧
      ((out.reinject = 1 ∧ out.subs = metaOk.subs) ∨
       ∃ (skb : Skb) (didReset : Bool) (base : List MptcpSub),
         out.reinject = 0 ∧
         base = (if didReset = true then tdm_reset_quotas cfg0 skb metaOk.subs
                 else metaOk.subs) ∧
         (didReset = true →
            0 < metaOk.subs.countP (tdmElig cfg0 skb) ∧
            ∀ s ∈ metaOk.subs, tdmElig cfg0 skb s = true →
              cfg0.num_segments ≤ s.quota) ∧
         ((out.subsk = none ∧ out.subs = base) ∨
          ∃ i ch, base[i]? = some ch ∧ out.subsk = some ch ∧
            out.subs = base.set i
              { ch with quota :=
                  ch.quota + tdm_quota_increment skb.len ch.mss_now }))) :=
  ⟨by decide, by decide,
   c3_quota_mutation_shape cfg0 metaOk (by decide) (by decide)⟩

theorem intToU32_small (x : Int) (h0 : 0 ≤ x) (h32 : x < 2 ^ 32) :
    intToU32 x = x.toNat := by
  rw [intToU32, Int.emod_eq_of_lt h0 h32]

/-- C7.  When the quota branch returns a decision, the selected subflow is
the first eligible mid-burst subflow in scan order when one exists, with
byte limit (num_segments - quota) * mss_now; otherwise it is a last idle
eligible subflow (of the original list, or of the reset list when the
original had no idle eligible subflow), with byte limit
num_segments * mss_now. -/
theorem c7_selection_and_byte_limit (cfg : TdmConfig) (meta : MetaSk)
    (out : SchedOut) (ch : MptcpSub) (skb : Skb)
    (hR : 1 ≤ cfg.num_segments) (hR32 : cfg.num_segments < 2 ^ 31)
    (hlen : meta.subs.length ≤ 255)
    (hmss : ∀ s ∈ meta.subs, cfg.num_segments.toNat * s.mss_now < 2 ^ 32)
    (hout : mptcp_tdm_next_segment cfg 2 meta = some out)
    (hrj : out.reinject = 0) (hskb : out.skb = some skb)
    (hch : out.subsk = some ch) :
    (∀ j s, firstBurstRel cfg skb meta.subs = some (j, s) →
      ch = s ∧ out.limit = (cfg.num_segments - s.quota).toNat * s.mss_now) ∧
    (firstBurstRel cfg skb meta.subs = none →
      ch.quota = 0 ∧ out.limit = cfg.num_segments.toNat * ch.mss_now ∧
      ((∃ j, lastIdleRel cfg skb meta.subs = some (j, ch)) ∨
       (lastIdleRel cfg skb meta.subs = none ∧
        ∃ j, lastIdleRel cfg skb (tdm_reset_quotas cfg skb meta.subs) =
          some (j, ch)))) := by
  rcases mptcp_tdm_next_segment'_cases meta with ⟨skb1, hinner, -, -, -⟩ | hinner
  · rw [mptcp_tdm_next_segment_of_inner_reinject cfg 2 meta skb1 hinner] at hout
    rcases hga : tdm_get_available_subflow meta (some skb1) false with ⟨osub, oskb⟩
    rw [hga] at hout
    rcases osub with _ | sub
    · cases Option.some.inj hout
      simp at hrj
    · cases Option.some.inj hout
      simp at hrj
  · rcases hsh : meta.send_head with _ | skb1
    · rw [hsh] at hinner
      rw [mptcp_tdm_next_segment_of_inner_none cfg 2 meta 0 hinner] at hout
      cases Option.some.inj hout
      simp at hch
    · rw [hsh] at hinner
      rw [mptcp_tdm_next_segment_of_inner_quota cfg 2 meta skb1 hinner] at hout
      rcases hfb : firstBurstRel cfg skb1 meta.subs with _ | ⟨j, s⟩
      · by_cases hcond : (scanOutAcc cfg skb1 meta.subs 0 (tdmInitAcc cfg)).iter ≠ 0 ∧
            (scanOutAcc cfg skb1 meta.subs 0 (tdmInitAcc cfg)).iter =
              (scanOutAcc cfg skb1 meta.subs 0 (tdmInitAcc cfg)).full_subs
        · -- round-exhaustion reset happened; original list has no idle subflow
          have hloop := tdm_retry_loop_reset cfg skb1 meta.subs hR hfb hcond 2
            (le_refl 2)
          rw [hloop] at hout
          have hfound := (Option.some.inj hout).symm
          have hiter1 : (scanOutAcc cfg skb1 meta.subs 0 (tdmInitAcc cfg)).iter =
              meta.subs.countP (tdmElig cfg skb1) % 256 := by
            simp [scanOutAcc, tdmInitAcc]
          have hfull1 :
              (scanOutAcc cfg skb1 meta.subs 0 (tdmInitAcc cfg)).full_subs =
              meta.subs.countP (tdmFull cfg skb1) % 256 := by
            simp [scanOutAcc, tdmInitAcc]
          have hn : meta.subs.countP (tdmElig cfg skb1) ≤ 255 :=
            le_trans (List.countP_le_length _) hlen
          have hm : meta.subs.countP (tdmFull cfg skb1) ≤ 255 :=
            le_trans (List.countP_le_length _) hlen
          rw [hiter1, hfull1] at hcond
          have heq' : meta.subs.countP (tdmElig cfg skb1) =
              meta.subs.countP (tdmFull cfg skb1) := by
            rcases hcond with ⟨h1', h2'⟩
            omega
          have hallfull := tdm_all_full_of_countP_eq cfg skb1 meta.subs heq'
          have hnoidle : lastIdleRel cfg skb1 meta.subs = none := by
            apply lastIdleRel_eq_none
            intro t ht
            by_cases he : tdmElig cfg skb1 t
            · have := hallfull t ht he
              rw [tdmIdle, he, Bool.true_and]
              simp only [decide_eq_false_iff_not]
              omega
            · rw [tdmIdle, Bool.eq_false_iff.mpr he, Bool.false_and]
          rcases hli2 : lastIdleRel cfg skb1 (tdm_reset_quotas cfg skb1 meta.subs)
            with _ | ⟨jj, ss⟩
          · have hchoose : (scanOutAcc cfg skb1
                (tdm_reset_quotas cfg skb1 meta.subs) 0
                (scanOutAcc cfg skb1 meta.subs 0 (tdmInitAcc cfg))).choose =
                none := by
              show (match lastIdleRel cfg skb1 (tdm_reset_quotas cfg skb1 meta.subs) with
                | some p => some (0 + p.1)
                | none => (scanOutAcc cfg skb1 meta.subs 0 (tdmInitAcc cfg)).choose) =
                none
              rw [hli2]
              show (match lastIdleRel cfg skb1 meta.subs with
                | some p => some (0 + p.1)
                | none => (tdmInitAcc cfg).choose) = none
              rw [hnoidle]
              rfl
            rw [tdm_found_no_choice cfg skb1 0 _ _ hchoose] at hfound
            rw [hfound] at hch
            simp at hch
          · have hchoose : (scanOutAcc cfg skb1
                (tdm_reset_quotas cfg skb1 meta.subs) 0
                (scanOutAcc cfg skb1 meta.subs 0 (tdmInitAcc cfg))).choose =
                some jj := by
              show (match lastIdleRel cfg skb1 (tdm_reset_quotas cfg skb1 meta.subs) with
                | some p => some (0 + p.1)
                | none => (scanOutAcc cfg skb1 meta.subs 0 (tdmInitAcc cfg)).choose) =
                some jj
              rw [hli2]
              simp
            have hsplit : (scanOutAcc cfg skb1
                (tdm_reset_quotas cfg skb1 meta.subs) 0
                (scanOutAcc cfg skb1 meta.subs 0 (tdmInitAcc cfg))).split =
                cfg.num_segments := by
              show (match lastIdleRel cfg skb1 (tdm_reset_quotas cfg skb1 meta.subs) with
                | some _ => cfg.num_segments
                | none => (scanOutAcc cfg skb1 meta.subs 0 (tdmInitAcc cfg)).split) =
                cfg.num_segments
              rw [hli2]
            obtain ⟨hget, hidle⟩ := lastIdleRel_get cfg skb1 _ jj ss hli2
            by_cases hav : mptcp_tdm_is_available ss (some skb1) false true
            · rw [tdm_found_sel cfg skb1 0 _ _ jj ss hchoose hget hav] at hfound
              have hsubsk : out.subsk = some ss := by rw [hfound]
              have hoskb : out.skb = some skb1 := by rw [hfound]
              have hlimit : out.limit =
                  intToU32 (scanOutAcc cfg skb1
                    (tdm_reset_quotas cfg skb1 meta.subs) 0
                    (scanOutAcc cfg skb1 meta.subs 0 (tdmInitAcc cfg))).split *
                    ss.mss_now % 2 ^ 32 := by rw [hfound]
              obtain rfl : ss = ch := Option.some.inj (hsubsk.symm.trans hch)
              obtain rfl : skb1 = skb := Option.some.inj (hoskb.symm.trans hskb)
              have hq0 : ss.quota = 0 := by
                rw [tdmIdle, Bool.and_eq_true] at hidle
                exact of_decide_eq_true hidle.2
              have hssmem : ss ∈ tdm_reset_quotas cfg skb1 meta.subs :=
                List.getElem?_mem hget
              obtain ⟨t, htmem, hcase⟩ :=
                mem_tdm_reset_quotas cfg skb1 meta.subs ss hssmem
              have hbnd : cfg.num_segments.toNat * ss.mss_now < 2 ^ 32 := by
                have hmt : ss.mss_now = t.mss_now := by
                  rcases hcase with ⟨-, rfl⟩ | ⟨-, rfl⟩ <;> rfl
                rw [hmt]
                exact hmss t htmem
              have hlim' : out.limit = cfg.num_segments.toNat * ss.mss_now := by
                rw [hlimit, hsplit,
                  intToU32_small cfg.num_segments (by omega) (by omega),
                  Nat.mod_eq_of_lt hbnd]
              refine ⟨?_, ?_⟩
              · intro j' s' hcontra
                rw [hfb] at hcontra
                exact absurd hcontra (by simp)
              · intro _
                exact ⟨hq0, hlim', Or.inr ⟨hnoidle, jj, hli2⟩⟩
            · rw [tdm_found_recheck_fail cfg skb1 0 _ _ jj ss hchoose hget
                (Bool.eq_false_iff.mpr hav)] at hfound
              rw [hfound] at hch
              simp at hch
        · -- single scan decided, no reset
          have hloop := tdm_retry_loop_no_reset cfg skb1 meta.subs hfb hcond 2
            (by norm_num)
          rw [hloop] at hout
          have hfound := (Option.some.inj hout).symm
          rcases hli : lastIdleRel cfg skb1 meta.subs with _ | ⟨jj, ss⟩
          · have hchoose : (scanOutAcc cfg skb1 meta.subs 0
                (tdmInitAcc cfg)).choose = none := by
              show (match lastIdleRel cfg skb1 meta.subs with
                | some p => some (0 + p.1)
                | none => (tdmInitAcc cfg).choose) = none
              rw [hli]
              rfl
            rw [tdm_found_no_choice cfg skb1 0 _ _ hchoose] at hfound
            rw [hfound] at hch
            simp at hch
          · have hchoose : (scanOutAcc cfg skb1 meta.subs 0
                (tdmInitAcc cfg)).choose = some jj := by
              show (match lastIdleRel cfg skb1 meta.subs with
                | some p => some (0 + p.1)
                | none => (tdmInitAcc cfg).choose) = some jj
              rw [hli]
              simp
            have hsplit : (scanOutAcc cfg skb1 meta.subs 0
                (tdmInitAcc cfg)).split = cfg.num_segments := by
              show (match lastIdleRel cfg skb1 meta.subs with
                | some _ => cfg.num_segments
                | none => (tdmInitAcc cfg).split) = cfg.num_segments
              rw [hli]
            obtain ⟨hget, hidle⟩ := lastIdleRel_get cfg skb1 _ jj ss hli
            by_cases hav : mptcp_tdm_is_available ss (some skb1) false true
            · rw [tdm_found_sel cfg skb1 0 _ _ jj ss hchoose hget hav] at hfound
              have hsubsk : out.subsk = some ss := by rw [hfound]
              have hoskb : out.skb = some skb1 := by rw [hfound]
              have hlimit : out.limit =
                  intToU32 (scanOutAcc cfg skb1 meta.subs 0
                    (tdmInitAcc cfg)).split * ss.mss_now % 2 ^ 32 := by
                rw [hfound]
              obtain rfl : ss = ch := Option.some.inj (hsubsk.symm.trans hch)
              obtain rfl : skb1 = skb := Option.some.inj (hoskb.symm.trans hskb)
              have hq0 : ss.quota = 0 := by
                rw [tdmIdle, Bool.and_eq_true] at hidle
                exact of_decide_eq_true hidle.2
              have hbnd : cfg.num_segments.toNat * ss.mss_now < 2 ^ 32 :=
                hmss ss (List.getElem?_mem hget)
              have hlim' : out.limit = cfg.num_segments.toNat * ss.mss_now := by
                rw [hlimit, hsplit,
                  intToU32_small cfg.num_segments (by omega) (by omega),
                  Nat.mod_eq_of_lt hbnd]
              refine ⟨?_, ?_⟩
              · intro j' s' hcontra
                rw [hfb] at hcontra
                exact absurd hcontra (by simp)
              · intro _
                exact ⟨hq0, hlim', Or.inl ⟨jj, hli⟩⟩
            · rw [tdm_found_recheck_fail cfg skb1 0 _ _ jj ss hchoose hget
                (Bool.eq_false_iff.mpr hav)] at hfound
              rw [hfound] at hch
              simp at hch
      · -- a mid-burst subflow exists: the first one is selected
        obtain ⟨it, fs, hloop⟩ :=
          tdm_retry_loop_burst cfg skb1 meta.subs j s hfb 2 (by norm_num)
        rw [hloop] at hout
        have hfound := (Option.some.inj hout).symm
        obtain ⟨hget, hburst⟩ := firstBurstRel_get cfg skb1 meta.subs j s hfb
        have hq : 0 < s.quota ∧ s.quota < cfg.num_segments := by
          rw [tdmBurst, Bool.and_eq_true] at hburst
          exact of_decide_eq_true hburst.2
        by_cases hav : mptcp_tdm_is_available s (some skb1) false true
        · rw [tdm_found_sel cfg skb1 0 _ _ j s rfl hget hav] at hfound
          have hsubsk : out.subsk = some s := by rw [hfound]
          have hoskb : out.skb = some skb1 := by rw [hfound]
          have hlimit : out.limit =
              intToU32 (cfg.num_segments - s.quota) * s.mss_now % 2 ^ 32 := by
            rw [hfound]
          obtain rfl : s = ch := Option.some.inj (hsubsk.symm.trans hch)
          obtain rfl : skb1 = skb := Option.some.inj (hoskb.symm.trans hskb)
          have hbnd : (cfg.num_segments - s.quota).toNat * s.mss_now < 2 ^ 32 := by
            have h1 : (cfg.num_segments - s.quota).toNat ≤
                cfg.num_segments.toNat := by
              apply Int.toNat_le_toNat
              omega
            calc (cfg.num_segments - s.quota).toNat * s.mss_now
                ≤ cfg.num_segments.toNat * s.mss_now :=
                  Nat.mul_le_mul_right _ h1
              _ < 2 ^ 32 := hmss s (List.getElem?_mem hget)
          have hlim' : out.limit =
              (cfg.num_segments - s.quota).toNat * s.mss_now := by
            rw [hlimit, intToU32_small (cfg.num_segments - s.quota)
              (by omega) (by omega), Nat.mod_eq_of_lt hbnd]
          refine ⟨?_, ?_⟩
          · intro j' s' hsome
            rw [hfb] at hsome
            obtain ⟨-, hs'⟩ := Prod.mk.injEq .. ▸ Option.some.inj hsome
            subst hs'
            exact ⟨rfl, hlim'⟩
          · intro hcontra
            rw [hfb] at hcontra
            exact absurd hcontra (by simp)
        · rw [tdm_found_recheck_fail cfg skb1 0 _ _ j s rfl hget
            (Bool.eq_false_iff.mpr hav)] at hfound
          rw [hfound] at hch
          simp at hch

/-- The quota branch's decision on metaOk: the single idle subflow is
selected, its quota moves to 1, and the byte limit is 10 * 1000. -/
def c7out : SchedOut :=
  { skb := some skb0, subsk := some subOk, limit := 10000, reinject := 0,
    subs := [{ subOk with quota := 1 }] }

theorem c7_selection_and_byte_limit_witness :
    (1 ≤ cfg0.num_segments ∧ cfg0.num_segments < 2 ^ 31 ∧
     metaOk.subs.length ≤ 255 ∧
     (∀ s ∈ metaOk.subs, cfg0.num_segments.toNat * s.mss_now < 2 ^ 32) ∧
     mptcp_tdm_next_segment cfg0 2 metaOk = some c7out ∧
     c7out.reinject = 0 ∧ c7out.skb = some skb0 ∧ c7out.subsk = some subOk) ∧
    ((∀ j s, firstBurstRel cfg0 skb0 metaOk.subs = some (j, s) →
       subOk = s ∧ c7out.limit = (cfg0.num_segments - s.quota).toNat * s.mss_now) ∧
     (firstBurstRel cfg0 skb0 metaOk.subs = none →
       subOk.quota = 0 ∧ c7out.limit = cfg0.num_segments.toNat * subOk.mss_now ∧
       ((∃ j, lastIdleRel cfg0 skb0 metaOk.subs = some (j, subOk)) ∨
        (lastIdleRel cfg0 skb0 metaOk.subs = none ∧
         ∃ j, lastIdleRel cfg0 skb0 (tdm_reset_quotas cfg0 skb0 metaOk.subs) =
           some (j, subOk))))) :=
  ⟨⟨by decide, by decide, by decide, by decide, by decide, rfl, rfl, rfl⟩,
   c7_selection_and_byte_limit cfg0 metaOk c7out subOk skb0 (by decide)
     (by decide) (by decide) (by decide) (by decide) rfl rfl rfl⟩

theorem getLast?_cons_eq {α : Type} (a : α) (l : List α) :
    (a :: l).getLast? =
      (match l.getLast? with | some b => some b | none => some a) := by
  cases l with
  | nil => rfl
  | cons b t =>
    rw [List.getLast?_cons_cons]
    rcases h : (b :: t).getLast? with _ | x
    · simp at h
    · rfl

/-- The main loop of tdm_get_available_subflow computes: bestsk = last
available non-carrying subflow, backupsk = last available carrying subflow,
sk = last subflow examined (each falling back to the entry value of the
corresponding variable when no subflow qualifies). -/
theorem tdm_scan_subflows_spec (skb : Option Skb) (zwt : Bool) :
    ∀ (l : List MptcpSub) (acc : SubflowScan),
      tdm_scan_subflows skb zwt l acc =
        { bestsk :=
            match (l.filter fun s => mptcp_tdm_is_available s skb zwt true &&
                !mptcp_tdm_dont_reinject_skb s skb).getLast? with
            | some b => some b
            | none => acc.bestsk
          backupsk :=
            match (l.filter fun s => mptcp_tdm_is_available s skb zwt true &&
                mptcp_tdm_dont_reinject_skb s skb).getLast? with
            | some b => some b
            | none => acc.backupsk
          sk :=
            match l.getLast? with
            | some b => some b
            | none => acc.sk } := by
  intro l
  induction l with
  | nil =>
    intro acc
    rfl
  | cons sub rest ih =>
    intro acc
    rw [tdm_scan_subflows]
    by_cases hav : mptcp_tdm_is_available sub skb zwt true
    · by_cases hdr : mptcp_tdm_dont_reinject_skb sub skb
      · rw [if_neg (by rw [hav]; simp), if_pos hdr, ih]
        have hbf : (List.filter (fun s => mptcp_tdm_is_available s skb zwt true &&
            !mptcp_tdm_dont_reinject_skb s skb) (sub :: rest)) =
            List.filter (fun s => mptcp_tdm_is_available s skb zwt true &&
              !mptcp_tdm_dont_reinject_skb s skb) rest := by
          rw [List.filter_cons, if_neg (by rw [hav, hdr]; simp)]
        have hkf : (List.filter (fun s => mptcp_tdm_is_available s skb zwt true &&
            mptcp_tdm_dont_reinject_skb s skb) (sub :: rest)) =
            sub :: List.filter (fun s => mptcp_tdm_is_available s skb zwt true &&
              mptcp_tdm_dont_reinject_skb s skb) rest := by
          rw [List.filter_cons, if_pos (by rw [hav, hdr]; simp)]
        rw [hbf, hkf, getLast?_cons_eq sub, getLast?_cons_eq sub]
        rcases (List.filter (fun s => mptcp_tdm_is_available s skb zwt true &&
            mptcp_tdm_dont_reinject_skb s skb) rest).getLast? with _ | x <;>
          rcases rest.getLast? with _ | y <;> rfl
      · rw [if_neg (by rw [hav]; simp), if_neg hdr, ih]
        have hbf : (List.filter (fun s => mptcp_tdm_is_available s skb zwt true &&
            !mptcp_tdm_dont_reinject_skb s skb) (sub :: rest)) =
            sub :: List.filter (fun s => mptcp_tdm_is_available s skb zwt true &&
              !mptcp_tdm_dont_reinject_skb s skb) rest := by
          rw [List.filter_cons,
            if_pos (by rw [hav, Bool.eq_false_iff.mpr hdr]; simp)]
        have hkf : (List.filter (fun s => mptcp_tdm_is_available s skb zwt true &&
            mptcp_tdm_dont_reinject_skb s skb) (sub :: rest)) =
            List.filter (fun s => mptcp_tdm_is_available s skb zwt true &&
              mptcp_tdm_dont_reinject_skb s skb) rest := by
          rw [List.filter_cons,
            if_neg (by rw [hav, Bool.eq_false_iff.mpr hdr]; simp)]
        rw [hbf, hkf, getLast?_cons_eq sub, getLast?_cons_eq sub]
        rcases (List.filter (fun s => mptcp_tdm_is_available s skb zwt true &&
            !mptcp_tdm_dont_reinject_skb s skb) rest).getLast? with _ | x <;>
          rcases rest.getLast? with _ | y <;> rfl
    · rw [if_pos (by rw [Bool.eq_false_iff.mpr hav]; simp), ih]
      have hbf : (List.filter (fun s => mptcp_tdm_is_available s skb zwt true &&
          !mptcp_tdm_dont_reinject_skb s skb) (sub :: rest)) =
          List.filter (fun s => mptcp_tdm_is_available s skb zwt true &&
            !mptcp_tdm_dont_reinject_skb s skb) rest := by
        rw [List.filter_cons, if_neg (by rw [Bool.eq_false_iff.mpr hav]; simp)]
      have hkf : (List.filter (fun s => mptcp_tdm_is_available s skb zwt true &&
          mptcp_tdm_dont_reinject_skb s skb) (sub :: rest)) =
          List.filter (fun s => mptcp_tdm_is_available s skb zwt true &&
            mptcp_tdm_dont_reinject_skb s skb) rest := by
        rw [List.filter_cons, if_neg (by rw [Bool.eq_false_iff.mpr hav]; simp)]
      rw [hbf, hkf, getLast?_cons_eq sub]
      rcases rest.getLast? with _ | y <;> rfl

/-- C8.  The claim says that with zero eligible paths get_path returns
none.  Counterexample: a connection with one subflow that is ineligible
(PossiblyFailed): the call returns that subflow — the loop variable sk
still points at the last subflow examined when neither bestsk nor backupsk
was set. -/
theorem c8_no_eligible_counterexample :
    (tdm_get_available_subflow metaC8 (some skb0) true).1 = some subPF1 ∧
    mptcp_tdm_is_available subPF1 (some skb0) true true = false := by
  constructor <;> decide

/-- C8 (amended).  For a non-close-signal segment, get_path prefers the last
available subflow that has not yet carried the segment; failing that it
takes the last available carrying subflow and clears the segment's whole
carried-path mask; and when no subflow at all is available it returns the
last subflow of the connection's list (none only when the list is empty),
without clearing the mask. -/
theorem c8_reinject_scan_behavior (meta : MetaSk) (skb : Skb) (zwt : Bool)
    (hdf : skb.is_data_fin = false) :
    tdm_get_available_subflow meta (some skb) zwt =
      (match (meta.subs.filter fun s =>
          mptcp_tdm_is_available s (some skb) zwt true &&
          !mptcp_tdm_dont_reinject_skb s (some skb)).getLast? with
       | some b => (some b, some skb)
       | none =>
         match (meta.subs.filter fun s =>
             mptcp_tdm_is_available s (some skb) zwt true &&
             mptcp_tdm_dont_reinject_skb s (some skb)).getLast? with
         | some b => (some b, some { skb with path_mask := 0 })
         | none => (meta.subs.getLast?, some skb)) := by
  rw [tdm_get_available_subflow]
  have hguard : (meta.rcv_shutdown && skb.is_data_fin) = false := by
    rw [hdf, Bool.and_false]
  simp only [hguard, Bool.false_eq_true, if_false, tdm_scan_subflows_spec]
  rcases (meta.subs.filter fun s =>
      mptcp_tdm_is_available s (some skb) zwt true &&
      !mptcp_tdm_dont_reinject_skb s (some skb)).getLast? with _ | b
  · rcases (meta.subs.filter fun s =>
        mptcp_tdm_is_available s (some skb) zwt true &&
        mptcp_tdm_dont_reinject_skb s (some skb)).getLast? with _ | b2
    · rcases meta.subs.getLast? with _ | sk <;> rfl
    · rfl
  · rfl

theorem c8_reinject_scan_behavior_witness :
    skb0.is_data_fin = false ∧
    tdm_get_available_subflow metaOk (some skb0) true =
      (match (metaOk.subs.filter fun s =>
          mptcp_tdm_is_available s (some skb0) true true &&
          !mptcp_tdm_dont_reinject_skb s (some skb0)).getLast? with
       | some b => (some b, some skb0)
       | none =>
         match (metaOk.subs.filter fun s =>
             mptcp_tdm_is_available s (some skb0) true true &&
             mptcp_tdm_dont_reinject_skb s (some skb0)).getLast? with
         | some b => (some b, some { skb0 with path_mask := 0 })
         | none => (metaOk.subs.getLast?, some skb0)) :=
  ⟨rfl, c8_reinject_scan_behavior metaOk skb0 true rfl⟩

end MptcpTdm
